import Mathlib

/-!
Verification of the SeaBIOS ROM layout tool `scripts/layoutrom.py`.

This file is a shallow embedding of the address-layout core of the script:
the data model (sections, relocations, symbols), the backward placement
routine `setSectionsStart`, the fixed-address packer `fitSections`, the
zone layout engine `doLayout`, the reachability traversals
(`findReachable` with the `checkKeep` / `checkRuntime` edge predicates),
and the relocation-table builder (`getRelocs` plus the `genreloc` gating).

Modelling conventions:
  * Python objects are mutated in place; here every function returns the
    updated section list.  Sections carry a numeric `id` so that shared
    mutation through the global section store can be expressed by
    merging updated copies back by id.
  * Python integers are unbounded, so machine arithmetic is exact `Int`
    (sizes, alignments and relocation offsets are nonnegative and kept
    as `Nat`, cast where needed).
  * `int(x / y)` in Python (float division then truncation towards zero)
    is `Int.tdiv` on exact integers.
  * The while-loops of the traversal are modelled with an explicit fuel
    parameter; the source loops terminate because each section is
    enqueued at most once.
  * Diagnostic `print` calls are dropped, except that the statistics
    line of `fitSections` divides by `BUILD_BIOS_SIZE - firstfixed`,
    which raises `ZeroDivisionError` when the lowest fixed section sits
    exactly at offset 0x10000; that failure is kept as a `none` result.
-/

namespace LayoutRom

/-- Characterwise lexicographic comparison, matching Python's string
ordering on the code points that occur in section names. -/
def charListLe : List Char → List Char → Bool
  | [], _ => true
  | _ :: _, [] => false
  | c :: cs, d :: ds =>
      if c.toNat < d.toNat then true
      else if d.toNat < c.toNat then false
      else charListLe cs ds

/-- Test whether `pat` occurs as a contiguous substring of `l`
(Python's `pat in s`). -/
def hasSubList (pat : List Char) : List Char → Bool
  | [] => pat.isPrefixOf []
  | c :: t => pat.isPrefixOf (c :: t) || hasSubList pat (t)

/-- Python `pat in s` on strings (contiguous substring test). -/
def strContains (s pat : String) : Bool := hasSubList pat.data s.data

/-- Python `s.startswith(pre)`. -/
def strHasPre (s pre : String) : Bool := pre.data.isPrefixOf s.data

/-- Value of one hexadecimal digit, if any. -/
def hexDigitVal (c : Char) : Option Nat :=
  if '0' ≤ c ∧ c ≤ '9' then some (c.toNat - 48)
  else if 'a' ≤ c ∧ c ≤ 'f' then some (c.toNat - 87)
  else if 'A' ≤ c ∧ c ≤ 'F' then some (c.toNat - 55)
  else none

/-- Python `int(s, 16)` restricted to the forms that occur in section
names: a nonempty string of hex digits, optionally preceded by `0x` or
`0X`.  (Python additionally strips whitespace and accepts a sign and
underscores; those never occur in `.fixedaddr.HEX` names.)  `none`
models the `ValueError`. -/
def hexVal (cs : List Char) : Option Nat :=
  let cs := match cs with
    | '0' :: 'x' :: t => t
    | '0' :: 'X' :: t => t
    | l => l
  match cs with
  | [] => none
  | _ => cs.foldlM (fun a c => (hexDigitVal c).map (fun v => 16 * a + v)) 0

/-- Symbol: a named location, `offset` bytes into the section identified
by `secId` (`none` models Python's `symbol.section is None`). -/
structure Symbol where
  name : String
  size : Nat
  offset : Int
  secId : Option Nat
deriving Repr, DecidableEq

/-- Relocation: a reference at byte `offset` of its owning section to
`symbolname`; `symbol` is the resolved symbol object (the parser always
fills it, possibly with a dummy whose `secId` is `none`). -/
structure Reloc where
  offset : Int
  type : String
  symbolname : String
  symbol : Symbol
deriving Repr, DecidableEq

/-- Section: a named, sized, aligned fragment from one compilation unit.
`id` identifies the Python object so that in-place mutation can be
modelled through a store. -/
structure Section where
  id : Nat
  name : String
  size : Nat
  align : Nat
  fileid : String
  category : String
  relocs : List Reloc
  finalloc : Option Int
  finalsegloc : Option Int
deriving Repr, DecidableEq

/-- Align `pos` to `alignbytes` (source: `(pos + mask) & ~mask` with
`mask = alignbytes - 1`).  Every call site passes a power of two, for
which the two's-complement bit-clear equals rounding up to the next
multiple, i.e. `alignbytes * ((pos + alignbytes - 1).fdiv alignbytes)`;
for `alignbytes = 0` both the Python expression (`mask = -1`, `~mask =
0`) and this formula yield 0. -/
def alignpos (pos : Int) (alignbytes : Int) : Int :=
  ((pos + alignbytes - 1).fdiv alignbytes) * alignbytes

/-- The running maximum of `minalign` and the section alignments
(first loop of `setSectionsStart`). -/
def maxAlign (secs : List Section) (minalign : Int) : Int :=
  secs.foldl (fun m s => if (s.align : Int) > m then (s.align : Int) else m) minalign

/-- The packed size accumulator of `setSectionsStart`:
`totspace = alignpos(totspace, section.align) + section.size` over the list. -/
def totSpace (secs : List Section) : Int :=
  secs.foldl (fun t s => alignpos t (s.align : Int) + (s.size : Int)) 0

/-- The address-assignment loop of `setSectionsStart`: starting from
`cur`, give each section `alignpos(cur, align)` as absolute location and
that minus `segoffset` as segment-relative location. -/
def assignAddrs (segoffset : Int) : Int → List Section → List Section
  | _, [] => []
  | cur, s :: rest =>
      let loc := alignpos cur (s.align : Int)
      { s with finalloc := some loc, finalsegloc := some (loc - segoffset) }
        :: assignAddrs segoffset (loc + (s.size : Int)) rest

/-- Result of `setSectionsStart`: the updated sections plus the returned
`(startaddr, minalign)` pair. -/
structure SetStartResult where
  secs : List Section
  startaddr : Int
  minalign : Int
deriving Repr, DecidableEq

/-- `setSectionsStart(sections, endaddr, minalign, segoffset)`:
`startaddr = int((endaddr - totspace) / minalign) * minalign` (truncation
towards zero), then the assignment loop from `startaddr`. -/
def setSectionsStart (secs : List Section) (endaddr minalign segoffset : Int) :
    SetStartResult :=
  let ma := maxAlign secs minalign
  let tot := totSpace secs
  let startaddr := ((endaddr - tot).tdiv ma) * ma
  { secs := assignAddrs segoffset startaddr secs
    startaddr := startaddr
    minalign := ma }

theorem alignpos_eq_sub_emod (pos a : Int) (ha : 0 < a) :
    alignpos pos a = pos + a - 1 - (pos + a - 1) % a := by
  unfold alignpos
  rw [Int.fdiv_eq_ediv _ (le_of_lt ha)]
  have h := Int.ediv_add_emod (pos + a - 1) a
  linarith

theorem le_alignpos (pos a : Int) (ha : 1 ≤ a) :
    pos ≤ alignpos pos a := by
  rw [alignpos_eq_sub_emod pos a (by linarith)]
  have h1 : (pos + a - 1) % a < a := Int.emod_lt_of_pos _ (by linarith)
  linarith

theorem alignpos_lt_add (pos a : Int) (ha : 1 ≤ a) :
    alignpos pos a < pos + a := by
  rw [alignpos_eq_sub_emod pos a (by linarith)]
  have h1 : 0 ≤ (pos + a - 1) % a := Int.emod_nonneg _ (by linarith)
  linarith

theorem dvd_alignpos (pos a : Int) : a ∣ alignpos pos a :=
  dvd_mul_left a _

theorem maxAlign_init_le : ∀ (secs : List Section) (m : Int), m ≤ maxAlign secs m := by
  intro secs
  induction secs with
  | nil => intro m; exact le_refl m
  | cons s t ih =>
      intro m
      have h := ih (if (s.align : Int) > m then (s.align : Int) else m)
      by_cases hc : (s.align : Int) > m
      · simp only [maxAlign, List.foldl_cons] at h ⊢
        simp only [if_pos hc] at h ⊢
        exact le_trans (le_of_lt hc) h
      · simp only [maxAlign, List.foldl_cons] at h ⊢
        simp only [if_neg hc] at h ⊢
        exact h

/-- Every section assigned by the loop of `setSectionsStart` gets both
final addresses, individually aligned, at or above the running address,
with the segment-relative address offset by `segoffset`; and consecutive
assigned locations advance by at least the preceding size. -/
theorem assignAddrs_spec (segoffset : Int) :
    ∀ (cur : Int) (secs : List Section), (∀ s ∈ secs, 1 ≤ s.align) →
    (∀ s ∈ assignAddrs segoffset cur secs,
        ∃ l, s.finalloc = some l ∧ (s.align : Int) ∣ l ∧ cur ≤ l
          ∧ s.finalsegloc = some (l - segoffset))
    ∧ List.Chain' (fun a b => a.1 + a.2 ≤ b.1)
        ((assignAddrs segoffset cur secs).map
          (fun s => (s.finalloc.getD 0, (s.size : Int)))) := by
  intro cur secs
  induction secs generalizing cur with
  | nil =>
      intro _
      refine ⟨?_, ?_⟩
      · intro s hs
        simp [assignAddrs] at hs
      · simp [assignAddrs]
  | cons s t ih =>
      intro hal
      have hs1 : 1 ≤ s.align := hal s (List.mem_cons_self s t)
      have hsa : (1 : Int) ≤ (s.align : Int) := by exact_mod_cast hs1
      have hloc : cur ≤ alignpos cur (s.align : Int) := le_alignpos _ _ hsa
      obtain ⟨ihmem, ihchain⟩ :=
        ih (alignpos cur (s.align : Int) + (s.size : Int))
          (fun x hx => hal x (List.mem_cons_of_mem s hx))
      constructor
      · intro x hx
        simp only [assignAddrs, List.mem_cons] at hx
        rcases hx with rfl | hx
        · exact ⟨alignpos cur (s.align : Int), rfl, dvd_alignpos _ _, hloc, rfl⟩
        · obtain ⟨l, h1, h2, h3, h4⟩ := ihmem x hx
          exact ⟨l, h1, h2, le_trans (le_trans hloc (by
            have : (0 : Int) ≤ (s.size : Int) := Int.natCast_nonneg _
            linarith)) h3, h4⟩
      · simp only [assignAddrs, List.map_cons]
        apply List.chain'_cons'.mpr
        refine ⟨?_, ihchain⟩
        intro y hy
        set cur' := alignpos cur (s.align : Int) + (s.size : Int) with hcur'
        have hhead : ∀ z ∈ assignAddrs segoffset cur' t,
            cur' ≤ z.finalloc.getD 0 := by
          intro z hz
          obtain ⟨l, h1, _, h3, _⟩ := ihmem z hz
          rw [h1]; exact h3
        cases htl : assignAddrs segoffset cur' t with
        | nil => rw [htl] at hy; simp at hy
        | cons z zs =>
            rw [htl] at hy
            simp only [List.head?_cons, List.map_cons] at hy
            cases hy
            have := hhead z (by rw [htl]; exact List.mem_cons_self z zs)
            simpa using this

/-- Claim C3, amended: for sections whose alignments are at least 1 (the
data model guarantees powers of two) and an end address at least the
total packed size, `setSectionsStart` returns the overall alignment as
the maximum of the minimum-alignment argument and all section
alignments, a start address equal to the end address minus the packed
size rounded down to that alignment, and assigns the sections
nondecreasing addresses from that start, each aligned to its own
alignment, with the segment-relative address offset by `segoffset`.
(The rounding is genuinely downward only because the gap is
nonnegative: the source truncates toward zero.) -/
theorem setSectionsStart_backward_placement (secs : List Section)
    (endaddr minalign segoffset : Int)
    (hmin : 1 ≤ minalign) (hal : ∀ s ∈ secs, 1 ≤ s.align)
    (hfit : totSpace secs ≤ endaddr) :
    (setSectionsStart secs endaddr minalign segoffset).minalign
        = maxAlign secs minalign
    ∧ (setSectionsStart secs endaddr minalign segoffset).startaddr
        = ((endaddr - totSpace secs).fdiv (maxAlign secs minalign))
            * maxAlign secs minalign
    ∧ maxAlign secs minalign
        ∣ (setSectionsStart secs endaddr minalign segoffset).startaddr
    ∧ (setSectionsStart secs endaddr minalign segoffset).startaddr
        ≤ endaddr - totSpace secs
    ∧ endaddr - totSpace secs
        < (setSectionsStart secs endaddr minalign segoffset).startaddr
            + maxAlign secs minalign
    ∧ (∀ s ∈ (setSectionsStart secs endaddr minalign segoffset).secs,
        ∃ l, s.finalloc = some l ∧ (s.align : Int) ∣ l
          ∧ (setSectionsStart secs endaddr minalign segoffset).startaddr ≤ l
          ∧ s.finalsegloc = some (l - segoffset))
    ∧ List.Chain' (fun a b => a.1 + a.2 ≤ b.1)
        ((setSectionsStart secs endaddr minalign segoffset).secs.map
          (fun s => (s.finalloc.getD 0, (s.size : Int)))) := by
  have hma : 1 ≤ maxAlign secs minalign := le_trans hmin (maxAlign_init_le secs minalign)
  have hgap : 0 ≤ endaddr - totSpace secs := by linarith
  have htd : (endaddr - totSpace secs).tdiv (maxAlign secs minalign)
      = (endaddr - totSpace secs) / (maxAlign secs minalign) := by
    rw [← Int.fdiv_eq_tdiv hgap (by linarith), Int.fdiv_eq_ediv _ (by linarith)]
  have hstart : (setSectionsStart secs endaddr minalign segoffset).startaddr
      = ((endaddr - totSpace secs) / (maxAlign secs minalign))
          * maxAlign secs minalign := by
    simp only [setSectionsStart, htd]
  refine ⟨rfl, ?_, ?_, ?_, ?_, ?_, ?_⟩
  · rw [hstart, Int.fdiv_eq_ediv _ (by linarith)]
  · rw [hstart]; exact dvd_mul_left _ _
  · rw [hstart]; exact Int.ediv_mul_le _ (by linarith)
  · rw [hstart]
    have h := Int.lt_ediv_add_one_mul_self (endaddr - totSpace secs)
      (show (0:Int) < maxAlign secs minalign by linarith)
    linarith [h, add_one_mul ((endaddr - totSpace secs) / (maxAlign secs minalign))
      (maxAlign secs minalign)]
  · exact (assignAddrs_spec segoffset _ secs hal).1
  · exact (assignAddrs_spec segoffset _ secs hal).2

/-- Concrete section used in the C3 counterexample. -/
def c3sec : Section :=
  { id := 0, name := ".data16.x", size := 1, align := 1, fileid := "16"
    category := "16", relocs := [], finalloc := none, finalsegloc := none }

/-- Claim C3, counterexample to the claim as stated: for the one-section
list of size 1 and end address 0 with minimum alignment 2, the start
address computed by `setSectionsStart` (truncation toward zero, giving
0) is not the end address minus the packed size rounded down to the
overall alignment (which is -2): the claim's "for every section list and
end address" fails when the end address is smaller than the packed
size. -/
theorem setSectionsStart_round_down_cex :
    (setSectionsStart [c3sec] 0 2 0).startaddr
      ≠ ((0 - totSpace [c3sec]).fdiv (maxAlign [c3sec] 2)) * maxAlign [c3sec] 2 := by
  decide

/-- Concrete section used in the C3 witness. -/
def c3wsec : Section :=
  { id := 1, name := ".text.f", size := 8, align := 4, fileid := "16"
    category := "16", relocs := [], finalloc := none, finalsegloc := none }

/-- Witness for `setSectionsStart_backward_placement` at a concrete
input. -/
theorem setSectionsStart_backward_placement_witness :
    ((1 : Int) ≤ 1 ∧ (∀ s ∈ [c3wsec], 1 ≤ s.align) ∧ totSpace [c3wsec] ≤ 100)
    ∧ ((setSectionsStart [c3wsec] 100 1 0).minalign = maxAlign [c3wsec] 1
    ∧ (setSectionsStart [c3wsec] 100 1 0).startaddr
        = ((100 - totSpace [c3wsec]).fdiv (maxAlign [c3wsec] 1)) * maxAlign [c3wsec] 1
    ∧ maxAlign [c3wsec] 1 ∣ (setSectionsStart [c3wsec] 100 1 0).startaddr
    ∧ (setSectionsStart [c3wsec] 100 1 0).startaddr ≤ 100 - totSpace [c3wsec]
    ∧ 100 - totSpace [c3wsec]
        < (setSectionsStart [c3wsec] 100 1 0).startaddr + maxAlign [c3wsec] 1
    ∧ (∀ s ∈ (setSectionsStart [c3wsec] 100 1 0).secs,
        ∃ l, s.finalloc = some l ∧ (s.align : Int) ∣ l
          ∧ (setSectionsStart [c3wsec] 100 1 0).startaddr ≤ l
          ∧ s.finalsegloc = some (l - 0))
    ∧ List.Chain' (fun a b => a.1 + a.2 ≤ b.1)
        ((setSectionsStart [c3wsec] 100 1 0).secs.map
          (fun s => (s.finalloc.getD 0, (s.size : Int))))) :=
  ⟨⟨le_refl 1, by decide, by decide⟩,
    setSectionsStart_backward_placement [c3wsec] 100 1 0 (le_refl 1)
      (by decide) (by decide)⟩

def BUILD_BIOS_ADDR : Int := 0xf0000

def BUILD_BIOS_SIZE : Int := 0x10000

def BUILD_ROM_START : Int := 0xc0000

def BUILD_LOWRAM_END : Int := 0xa0000

def BUILD_MIN_BIOSTABLE : Int := 2048

/-- First loop of `fitSections`: pick out the `.fixedaddr.HEX` sections
in order, give them their mandated final addresses, and fail on an
unparsable hex suffix (`ValueError`) or a non-unit alignment
(`sys.exit(1)`).  Returns the updated list together with the
`(addr, section)` pairs. -/
def collectFixed : List Section → Option (List Section × List (Nat × Section))
  | [] => some ([], [])
  | s :: rest =>
      if strHasPre s.name ".fixedaddr." then
        match hexVal (s.name.data.drop 11) with
        | none => none
        | some addr =>
            let s' := { s with finalloc := some ((addr : Int) + BUILD_BIOS_ADDR)
                               finalsegloc := some (addr : Int) }
            if s.align ≠ 1 then none
            else
              match collectFixed rest with
              | none => none
              | some (rs, fixed) => some (s' :: rs, (addr, s') :: fixed)
      else
        match collectFixed rest with
        | none => none
        | some (rs, fixed) => some (s :: rs, fixed)

/-- Free space after each fixed section (second loop of `fitSections`):
`avail = nextaddr - addr - size`, where `nextaddr` is the next fixed
offset, or `BUILD_BIOS_SIZE` for the last one. -/
def availGaps : List (Nat × Section) → List (Int × Section)
  | [] => []
  | (addr, s) :: rest =>
      let nextaddr : Int := match rest with
        | [] => BUILD_BIOS_SIZE
        | (a2, _) :: _ => (a2 : Int)
      (nextaddr - (addr : Int) - (s.size : Int), s) :: availGaps rest

/-- Python's ascending sort of the `(size, align, name, section)` tuples
built from the fillable pool: lexicographic on the three keys.  (On a
full tie Python would compare the section objects and raise `TypeError`;
the stable sort below keeps input order there instead.) -/
def relKeyLe (a b : Section) : Bool :=
  if a.size = b.size then
    if a.align = b.align then charListLe a.name.data b.name.data
    else decide (a.align < b.align)
  else decide (a.size < b.size)

/-- The inner candidate scan of `fitSections`: walk the (size-ascending)
pool, break at the first candidate whose raw size overruns
`nextfixedaddr`, skip a candidate whose aligned end overruns, and
remember the last candidate that fits (`canfit` is overwritten at every
fit, so the final value wins). -/
def pickFit (addpos nextfixedaddr : Int) : List Section → Option (Int × Section) →
    Option (Int × Section)
  | [], acc => acc
  | c :: rest, acc =>
      if addpos + (c.size : Int) > nextfixedaddr then acc
      else
        let fitnextaddr := alignpos addpos (c.align : Int) + (c.size : Int)
        if fitnextaddr > nextfixedaddr then pickFit addpos nextfixedaddr rest acc
        else pickFit addpos nextfixedaddr rest (some (fitnextaddr, c))

theorem pickFit_result_mem (addpos nextfixedaddr : Int) :
    ∀ (cans : List Section) (acc : Option (Int × Section)) (r : Int × Section),
      pickFit addpos nextfixedaddr cans acc = some r →
      acc = some r ∨ r.2 ∈ cans := by
  intro cans
  induction cans with
  | nil => intro acc r h; exact Or.inl h
  | cons c rest ih =>
      intro acc r h
      simp only [pickFit] at h
      by_cases h1 : addpos + (c.size : Int) > nextfixedaddr
      · rw [if_pos h1] at h; exact Or.inl h
      · rw [if_neg h1] at h
        by_cases h2 : alignpos addpos (c.align : Int) + (c.size : Int) > nextfixedaddr
        · rw [if_pos h2] at h
          rcases ih acc r h with h3 | h3
          · exact Or.inl h3
          · exact Or.inr (List.mem_cons_of_mem c h3)
        · rw [if_neg h2] at h
          rcases ih _ r h with h3 | h3
          · cases h3
            exact Or.inr (List.mem_cons_self c rest)
          · exact Or.inr (List.mem_cons_of_mem c h3)

/-- The `while 1` loop of `fitSections` for one gap: repeatedly place
the section chosen by the scan at the current (unaligned) position,
remove it from the pool, and advance to its aligned end.  Returns the
remaining pool, the final position, and the placed (updated) sections in
placement order.  The fuel is spent once per placement; since every
placement removes one pool element, `cans.length` fuel (supplied by
`fillGapLoop` below) is never exhausted before the scan returns
nothing, so this is exactly the source's unbounded `while 1`. -/
def fillGapFuel (nextfixedaddr : Int) : Nat → List Section → Int →
    List Section → List Section × Int × List Section
  | 0, cans, addpos, placed => (cans, addpos, placed)
  | fuel + 1, cans, addpos, placed =>
      match pickFit addpos nextfixedaddr cans none with
      | none => (cans, addpos, placed)
      | some (fitnextaddr, c) =>
          let c' := { c with finalloc := some (addpos + BUILD_BIOS_ADDR)
                             finalsegloc := some addpos }
          fillGapFuel nextfixedaddr fuel (cans.erase c) fitnextaddr (placed ++ [c'])

/-- The one-gap loop with enough fuel to run to completion. -/
def fillGapLoop (nextfixedaddr : Int) (cans : List Section) (addpos : Int)
    (placed : List Section) : List Section × Int × List Section :=
  fillGapFuel nextfixedaddr cans.length cans addpos placed

/-- The outer loop of `fitSections` over the gaps (smallest available
space first): fill each gap from the shared pool, recording for each gap
entry the sections placed into it. -/
def fitLoop : List (Int × Section) → List Section →
    List Section × List ((Int × Section) × List Section)
  | [], cans => (cans, [])
  | (freespace, fs) :: rest, cans =>
      let addpos := fs.finalsegloc.getD 0 + (fs.size : Int)
      let nextfixedaddr := addpos + freespace
      let r1 := fillGapLoop nextfixedaddr cans addpos []
      let r2 := fitLoop rest r1.1
      (r2.1, ((freespace, fs), r1.2.2) :: r2.2)

/-- Result of `fitSections`: the updated input list, the leftover pool,
the per-gap placements, the lowest fixed offset and the returned
absolute address `firstfixed + BUILD_BIOS_ADDR`. -/
structure FitResult where
  env : List Section
  cans : List Section
  placedGaps : List ((Int × Section) × List Section)
  firstfixed : Nat
  ret : Int
deriving Repr, DecidableEq

/-- `fitSections(sections, fillsections)`.  `none` models the three ways
the source dies: a bad `.fixedaddr.` suffix, a fixed section with
non-unit alignment, the `IndexError` on `fixedsections[0]` when no
section is fixed, and the `ZeroDivisionError` in the statistics line
when the lowest fixed offset is exactly `BUILD_BIOS_SIZE`. -/
def fitSections (secs fillsections : List Section) : Option FitResult :=
  match collectFixed secs with
  | none => none
  | some (secs', fixedpairs) =>
      match List.insertionSort (fun a b => a.1 ≤ b.1) fixedpairs with
      | [] => none
      | (a0, s0) :: restf =>
          let gaps := List.insertionSort (fun a b => a.1 ≤ b.1)
            (availGaps ((a0, s0) :: restf))
          let cans0 := List.insertionSort (fun a b => relKeyLe a b = true) fillsections
          let r := fitLoop gaps cans0
          if BUILD_BIOS_SIZE - (a0 : Int) = 0 then none
          else some { env := secs', cans := r.1, placedGaps := r.2
                      firstfixed := a0, ret := (a0 : Int) + BUILD_BIOS_ADDR }

/-- The offsets encoded in the names of the fixed-address sections of a
list, in list order. -/
def fixedAddrsOf (secs : List Section) : List Nat :=
  secs.filterMap (fun s =>
    if strHasPre s.name ".fixedaddr." then hexVal (s.name.data.drop 11) else none)

theorem collectFixed_of_no_fixed (secs : List Section)
    (h : ∀ s ∈ secs, strHasPre s.name ".fixedaddr." = false) :
    collectFixed secs = some (secs, []) := by
  induction secs with
  | nil => rfl
  | cons s t ih =>
      have hs := h s (List.mem_cons_self s t)
      have ht := ih (fun x hx => h x (List.mem_cons_of_mem s hx))
      simp only [collectFixed, hs, Bool.false_eq_true, if_false, ht]

/-- The updated copy of a fixed section produced by `collectFixed`. -/
def fixSec (s : Section) (a : Nat) : Section :=
  { s with finalloc := some ((a : Int) + BUILD_BIOS_ADDR)
           finalsegloc := some (a : Int) }

theorem collectFixed_cons_fixed (s : Section) (t : List Section) (a : Nat)
    (hf : strHasPre s.name ".fixedaddr." = true)
    (ha : hexVal (s.name.data.drop 11) = some a)
    (hal : s.align = 1) (rs : List Section) (ps : List (Nat × Section))
    (ht : collectFixed t = some (rs, ps)) :
    collectFixed (s :: t) =
      some (fixSec s a :: rs, (a, fixSec s a) :: ps) := by
  simp only [collectFixed, hf, ha, hal, ht, fixSec]
  simp

theorem collectFixed_cons_other (s : Section) (t : List Section)
    (hf : strHasPre s.name ".fixedaddr." = false)
    (rs : List Section) (ps : List (Nat × Section))
    (ht : collectFixed t = some (rs, ps)) :
    collectFixed (s :: t) = some (s :: rs, ps) := by
  simp only [collectFixed, hf, Bool.false_eq_true, if_false, ht]

theorem collectFixed_ok (secs : List Section)
    (h : ∀ s ∈ secs, strHasPre s.name ".fixedaddr." = true →
      (hexVal (s.name.data.drop 11)).isSome ∧ s.align = 1) :
    ∃ env1 pairs, collectFixed secs = some (env1, pairs)
      ∧ pairs.map Prod.fst = fixedAddrsOf secs := by
  induction secs with
  | nil => exact ⟨[], [], rfl, rfl⟩
  | cons s t ih =>
      obtain ⟨env1, pairs, h1, h2⟩ :=
        ih (fun x hx => h x (List.mem_cons_of_mem s hx))
      by_cases hf : strHasPre s.name ".fixedaddr." = true
      · obtain ⟨hhex, halign⟩ := h s (List.mem_cons_self s t) hf
        obtain ⟨a, ha⟩ := Option.isSome_iff_exists.mp hhex
        refine ⟨fixSec s a :: env1, (a, fixSec s a) :: pairs,
          collectFixed_cons_fixed s t a hf ha halign env1 pairs h1, ?_⟩
        have hfa : fixedAddrsOf (s :: t) = a :: fixedAddrsOf t := by
          simp [fixedAddrsOf, hf, ha]
        rw [hfa, List.map_cons, h2]
      · rw [Bool.not_eq_true] at hf
        refine ⟨s :: env1, pairs,
          collectFixed_cons_other s t hf env1 pairs h1, ?_⟩
        have hfa : fixedAddrsOf (s :: t) = fixedAddrsOf t := by
          simp [fixedAddrsOf, hf]
        rw [hfa, h2]

instance : IsTotal (Nat × Section) (fun a b => a.1 ≤ b.1) :=
  ⟨fun a b => Nat.le_total a.1 b.1⟩

instance : IsTrans (Nat × Section) (fun a b => a.1 ≤ b.1) :=
  ⟨fun _ _ _ h1 h2 => Nat.le_trans h1 h2⟩

instance : IsTotal (Int × Section) (fun a b => a.1 ≤ b.1) :=
  ⟨fun a b => Int.le_total a.1 b.1⟩

instance : IsTrans (Int × Section) (fun a b => a.1 ≤ b.1) :=
  ⟨fun _ _ _ h1 h2 => Int.le_trans h1 h2⟩

/-- Claim C10, amended: `fitSections` fails on a list with no
fixed-address section (the claim's necessity direction holds), but the
existence of a fixed section alone does not make it total: additionally
every fixed section must carry a parsable hex suffix and unit alignment,
and the lowest fixed offset must differ from `BUILD_BIOS_SIZE` (the
statistics line divides by `BUILD_BIOS_SIZE - firstfixed`).  Under those
conditions it succeeds and returns the absolute address of the lowest
fixed section. -/
theorem fitSections_fixed_precondition (secs fills : List Section) :
    ((∀ s ∈ secs, strHasPre s.name ".fixedaddr." = false) →
      fitSections secs fills = none)
    ∧ ((∃ s ∈ secs, strHasPre s.name ".fixedaddr." = true) →
       (∀ s ∈ secs, strHasPre s.name ".fixedaddr." = true →
          (hexVal (s.name.data.drop 11)).isSome ∧ s.align = 1) →
       (∀ a ∈ fixedAddrsOf secs,
          (∀ b ∈ fixedAddrsOf secs, a ≤ b) → a ≠ 0x10000) →
       ∃ r, fitSections secs fills = some r
         ∧ r.firstfixed ∈ fixedAddrsOf secs
         ∧ (∀ a ∈ fixedAddrsOf secs, r.firstfixed ≤ a)
         ∧ r.ret = (r.firstfixed : Int) + BUILD_BIOS_ADDR) := by
  constructor
  · intro h
    rw [fitSections, collectFixed_of_no_fixed secs h]
    simp
  · intro hex hok hmin
    obtain ⟨env1, pairs, hcf, haddrs⟩ := collectFixed_ok secs hok
    have hne : fixedAddrsOf secs ≠ [] := by
      obtain ⟨s, hs, hf⟩ := hex
      obtain ⟨hhex, _⟩ := hok s hs hf
      obtain ⟨a, ha⟩ := Option.isSome_iff_exists.mp hhex
      have : a ∈ fixedAddrsOf secs := by
        apply List.mem_filterMap.mpr
        exact ⟨s, hs, by simp [hf, ha]⟩
      intro hempty
      rw [hempty] at this
      cases this
    have hpairsne : pairs ≠ [] := by
      intro hp
      rw [hp] at haddrs
      exact hne haddrs.symm
    have hsortperm := List.perm_insertionSort (fun a b => a.1 ≤ b.1) pairs
    have hsorted := List.sorted_insertionSort (fun a b => a.1 ≤ b.1) pairs
    cases hms : List.insertionSort (fun a b => a.1 ≤ b.1) pairs with
    | nil =>
        exfalso
        apply hpairsne
        have := hsortperm.length_eq
        rw [hms] at this
        exact List.eq_nil_of_length_eq_zero this.symm
    | cons p0 restp =>
        obtain ⟨a0, s0⟩ := p0
        have hmem0 : (a0, s0).1 ∈ fixedAddrsOf secs := by
          rw [← haddrs]
          have hp : (a0, s0) ∈ pairs :=
            hsortperm.mem_iff.mp (by rw [hms]; exact List.mem_cons_self _ _)
          exact List.mem_map_of_mem Prod.fst hp
        have hminp : ∀ a ∈ fixedAddrsOf secs, (a0, s0).1 ≤ a := by
          intro a ha
          rw [← haddrs] at ha
          obtain ⟨q, hq, hqa⟩ := List.mem_map.mp ha
          have hq' : q ∈ (a0, s0) :: restp := by
            rw [← hms]; exact hsortperm.mem_iff.mpr hq
          rcases List.mem_cons.mp hq' with rfl | hq2
          · omega
          · rw [hms] at hsorted
            have := (List.pairwise_cons.mp hsorted).1 q hq2
            omega
        have hguard : BUILD_BIOS_SIZE - ((a0, s0).1 : Int) ≠ 0 := by
          have := hmin (a0, s0).1 hmem0 hminp
          simp only [BUILD_BIOS_SIZE]
          simp only at this
          omega
        have hfs : fitSections secs fills = some
            { env := env1
              cans := (fitLoop (List.insertionSort (fun a b => a.1 ≤ b.1)
                    (availGaps ((a0, s0) :: restp)))
                  (List.insertionSort (fun a b => relKeyLe a b = true) fills)).1
              placedGaps := (fitLoop (List.insertionSort (fun a b => a.1 ≤ b.1)
                    (availGaps ((a0, s0) :: restp)))
                  (List.insertionSort (fun a b => relKeyLe a b = true) fills)).2
              firstfixed := a0
              ret := (a0 : Int) + BUILD_BIOS_ADDR } := by
          rw [fitSections, hcf]
          simp only [hms]
          rw [if_neg hguard]
        exact ⟨_, hfs, hmem0, hminp, rfl⟩

/-- Concrete fixed section with non-unit alignment for the C10
counterexample. -/
def c10sec : Section :=
  { id := 20, name := ".fixedaddr.0", size := 0, align := 2, fileid := "16"
    category := "fixed", relocs := [], finalloc := none, finalsegloc := none }

/-- Claim C10, counterexample to the sufficiency direction as stated: a
list containing a fixed-address section (so the claimed precondition
holds) on which `fitSections` nevertheless fails, because the fixed
section has alignment 2 and the source calls `sys.exit(1)`. -/
theorem fitSections_fixed_not_total_cex :
    (strHasPre c10sec.name ".fixedaddr." = true ∧ c10sec ∈ [c10sec])
    ∧ fitSections [c10sec] [] = none := by
  refine ⟨⟨?_, List.mem_cons_self _ _⟩, ?_⟩
  · decide
  · decide

/-- Witness for `fitSections_fixed_precondition` at a concrete input:
one fixed section at offset `0x100` and no fill pool. -/
def c10wsec : Section :=
  { id := 21, name := ".fixedaddr.100", size := 4, align := 1, fileid := "16"
    category := "fixed", relocs := [], finalloc := none, finalsegloc := none }

theorem fitSections_fixed_precondition_witness :
    ((∃ s ∈ [c10wsec], strHasPre s.name ".fixedaddr." = true)
      ∧ (∀ s ∈ [c10wsec], strHasPre s.name ".fixedaddr." = true →
          (hexVal (s.name.data.drop 11)).isSome ∧ s.align = 1)
      ∧ (∀ a ∈ fixedAddrsOf [c10wsec],
          (∀ b ∈ fixedAddrsOf [c10wsec], a ≤ b) → a ≠ 0x10000))
    ∧ (∃ r, fitSections [c10wsec] [] = some r
        ∧ r.firstfixed ∈ fixedAddrsOf [c10wsec]
        ∧ (∀ a ∈ fixedAddrsOf [c10wsec], r.firstfixed ≤ a)
        ∧ r.ret = (r.firstfixed : Int) + BUILD_BIOS_ADDR) :=
  ⟨⟨by decide, by decide, by decide⟩,
    (fitSections_fixed_precondition [c10wsec] []).2
      (by decide) (by decide) (by decide)⟩

theorem charListLe_total : ∀ (a b : List Char),
    (charListLe a b || charListLe b a) = true := by
  intro a
  induction a with
  | nil => intro b; simp [charListLe]
  | cons c cs ih =>
      intro b
      cases b with
      | nil => simp [charListLe]
      | cons d ds =>
          simp only [charListLe]
          rcases Nat.lt_trichotomy c.toNat d.toNat with h | h | h
          · simp [h]
          · simp only [h, lt_irrefl, if_false]
            exact ih ds
          · simp [h, Nat.not_lt_of_lt h]

theorem charListLe_trans : ∀ (a b c : List Char),
    charListLe a b = true → charListLe b c = true → charListLe a c = true := by
  intro a
  induction a with
  | nil => intro b c _ _; rfl
  | cons x xs ih =>
      intro b c hab hbc
      cases b with
      | nil => simp [charListLe] at hab
      | cons y ys =>
          cases c with
          | nil => simp [charListLe] at hbc
          | cons z zs =>
              simp only [charListLe] at hab hbc ⊢
              by_cases h1 : x.toNat < y.toNat
              · by_cases h2 : y.toNat < z.toNat
                · rw [if_pos (by omega)]
                · by_cases h3 : z.toNat < y.toNat
                  · rw [if_neg h2, if_pos h3] at hbc
                    exact absurd hbc (by simp)
                  · rw [if_pos (by omega)]
              · by_cases h1b : y.toNat < x.toNat
                · rw [if_neg h1, if_pos h1b] at hab
                  exact absurd hab (by simp)
                · rw [if_neg h1, if_neg h1b] at hab
                  by_cases h2 : y.toNat < z.toNat
                  · rw [if_pos (by omega)]
                  · by_cases h3 : z.toNat < y.toNat
                    · rw [if_neg h2, if_pos h3] at hbc
                      exact absurd hbc (by simp)
                    · rw [if_neg h2, if_neg h3] at hbc
                      rw [if_neg (by omega), if_neg (by omega)]
                      exact ih ys zs hab hbc

theorem relKeyLe_total : ∀ (a b : Section), (relKeyLe a b || relKeyLe b a) = true := by
  intro a b
  simp only [relKeyLe]
  by_cases h1 : a.size = b.size
  · rw [if_pos h1, if_pos h1.symm]
    by_cases h2 : a.align = b.align
    · rw [if_pos h2, if_pos h2.symm]
      exact charListLe_total a.name.data b.name.data
    · rw [if_neg h2, if_neg (fun h => h2 h.symm)]
      rcases Nat.lt_or_ge a.align b.align with h | h
      · simp [h]
      · have : b.align < a.align := by omega
        simp [this]
  · rw [if_neg h1, if_neg (fun h => h1 h.symm)]
    rcases Nat.lt_or_ge a.size b.size with h | h
    · simp [h]
    · have : b.size < a.size := by omega
      simp [this]

theorem relKeyLe_trans : ∀ (a b c : Section),
    relKeyLe a b = true → relKeyLe b c = true → relKeyLe a c = true := by
  intro a b c hab hbc
  simp only [relKeyLe] at hab hbc ⊢
  by_cases h1 : a.size = b.size <;> by_cases h2 : b.size = c.size
  · rw [if_pos h1] at hab
    rw [if_pos h2] at hbc
    rw [if_pos (h1.trans h2)]
    by_cases h3 : a.align = b.align <;> by_cases h4 : b.align = c.align
    · rw [if_pos h3] at hab
      rw [if_pos h4] at hbc
      rw [if_pos (h3.trans h4)]
      exact charListLe_trans _ _ _ hab hbc
    · rw [if_pos h3] at hab
      rw [if_neg h4] at hbc
      rw [if_neg (by rw [h3]; exact h4)]
      simp only [decide_eq_true_eq] at hbc ⊢
      omega
    · rw [if_neg h3] at hab
      rw [if_pos h4] at hbc
      rw [if_neg (by rw [← h4]; exact h3)]
      simp only [decide_eq_true_eq] at hab ⊢
      omega
    · rw [if_neg h3] at hab
      rw [if_neg h4] at hbc
      simp only [decide_eq_true_eq] at hab hbc
      rw [if_neg (by omega)]
      simp only [decide_eq_true_eq]
      omega
  · rw [if_pos h1] at hab
    rw [if_neg h2] at hbc
    rw [if_neg (by rw [h1]; exact h2)]
    simp only [decide_eq_true_eq] at hbc ⊢
    omega
  · rw [if_neg h1] at hab
    rw [if_pos h2] at hbc
    rw [if_neg (by rw [← h2]; exact h1)]
    simp only [decide_eq_true_eq] at hab ⊢
    omega
  · rw [if_neg h1] at hab
    rw [if_neg h2] at hbc
    simp only [decide_eq_true_eq] at hab hbc
    rw [if_neg (by omega)]
    simp only [decide_eq_true_eq]
    omega

instance : IsTotal Section (fun a b => relKeyLe a b = true) :=
  ⟨fun a b => by
    rcases Bool.or_eq_true_iff.mp (relKeyLe_total a b) with h | h
    · exact Or.inl h
    · exact Or.inr h⟩

instance : IsTrans Section (fun a b => relKeyLe a b = true) :=
  ⟨fun a b c => relKeyLe_trans a b c⟩

/-- The aligned-end fit test of the candidate scan. -/
def alignedFit (addpos nextfixedaddr : Int) (c : Section) : Bool :=
  decide (alignpos addpos (c.align : Int) + (c.size : Int) ≤ nextfixedaddr)

/-- On a size-ascending pool, the candidate scan returns the last
element that fits (the largest one, since the pool ascends), not an
ascending prefix: `canfit` is overwritten by every fitting candidate and
the scan stops only at the first raw-size overrun, past which nothing
fits. -/
theorem pickFit_eq_getLast (addpos nextfixedaddr : Int) :
    ∀ (cans : List Section) (acc : Option (Int × Section)),
      (∀ c ∈ cans, 1 ≤ c.align) →
      List.Pairwise (fun a b => a.size ≤ b.size) cans →
      pickFit addpos nextfixedaddr cans acc =
        match (cans.filter (alignedFit addpos nextfixedaddr)).getLast? with
        | some c => some (alignpos addpos (c.align : Int) + (c.size : Int), c)
        | none => acc := by
  intro cans
  induction cans with
  | nil => intro acc _ _; rfl
  | cons c rest ih =>
      intro acc hal hpw
      by_cases h1 : addpos + (c.size : Int) > nextfixedaddr
      · have hnone : ∀ d ∈ c :: rest, alignedFit addpos nextfixedaddr d = false := by
          intro d hd
          have hsz : (c.size : Int) ≤ (d.size : Int) := by
            rcases List.mem_cons.mp hd with rfl | hd2
            · exact le_refl _
            · exact_mod_cast (List.pairwise_cons.mp hpw).1 d hd2
          have hda : (1 : Int) ≤ (d.align : Int) := by
            exact_mod_cast hal d hd
          have hap := le_alignpos addpos (d.align : Int) hda
          simp only [alignedFit, decide_eq_false_iff_not, not_le]
          omega
        have hfil : (c :: rest).filter (alignedFit addpos nextfixedaddr) = [] := by
          rw [List.filter_eq_nil_iff]
          intro d hd
          rw [hnone d hd]
          simp
        rw [hfil]
        simp only [pickFit, List.getLast?_nil]
        rw [if_pos h1]
      · by_cases h2 : alignpos addpos (c.align : Int) + (c.size : Int) > nextfixedaddr
        · have hfc : alignedFit addpos nextfixedaddr c = false := by
            simp only [alignedFit, decide_eq_false_iff_not, not_le]
            omega
          have hfil : (c :: rest).filter (alignedFit addpos nextfixedaddr)
              = rest.filter (alignedFit addpos nextfixedaddr) := by
            simp [List.filter_cons, hfc]
          rw [hfil]
          have hstep : pickFit addpos nextfixedaddr (c :: rest) acc
              = pickFit addpos nextfixedaddr rest acc := by
            simp only [pickFit]
            rw [if_neg h1, if_pos h2]
          rw [hstep]
          exact ih acc (fun x hx => hal x (List.mem_cons_of_mem c hx))
            (List.pairwise_cons.mp hpw).2
        · have hfc : alignedFit addpos nextfixedaddr c = true := by
            simp only [alignedFit, decide_eq_true_eq]
            omega
          have hfil : (c :: rest).filter (alignedFit addpos nextfixedaddr)
              = c :: rest.filter (alignedFit addpos nextfixedaddr) := by
            simp [List.filter_cons, hfc]
          rw [hfil]
          have hstep : pickFit addpos nextfixedaddr (c :: rest) acc
              = pickFit addpos nextfixedaddr rest
                  (some (alignpos addpos (c.align : Int) + (c.size : Int), c)) := by
            simp only [pickFit]
            rw [if_neg h1, if_neg h2]
          rw [hstep]
          rw [ih _ (fun x hx => hal x (List.mem_cons_of_mem c hx))
            (List.pairwise_cons.mp hpw).2]
          cases hfr : rest.filter (alignedFit addpos nextfixedaddr) with
          | nil => simp
          | cons d ds =>
              cases hgl : (d :: ds).getLast? with
              | none =>
                  exfalso
                  rw [List.getLast?_eq_none_iff] at hgl
                  cases hgl
              | some e => rw [List.getLast?_cons_cons, hgl]

theorem fitLoop_gaps_fst : ∀ (gaps : List (Int × Section)) (cans : List Section),
    (fitLoop gaps cans).2.map Prod.fst = gaps := by
  intro gaps
  induction gaps with
  | nil => intro cans; rfl
  | cons g rest ih =>
      intro cans
      obtain ⟨f, fs⟩ := g
      simp only [fitLoop, List.map_cons, ih]

theorem fitLoop_gaps_addr : ∀ (gaps : List (Int × Section)) (cans : List Section),
    (fitLoop gaps cans).2.map (fun g => g.1.1) = gaps.map Prod.fst := by
  intro gaps
  induction gaps with
  | nil => intro cans; rfl
  | cons g rest ih =>
      intro cans
      obtain ⟨f, fs⟩ := g
      simp only [fitLoop, List.map_cons, ih]

theorem fillGapFuel_cans_sublist (nextfixedaddr : Int) :
    ∀ (fuel : Nat) (cans : List Section) (addpos : Int) (placed : List Section),
      (fillGapFuel nextfixedaddr fuel cans addpos placed).1.Sublist cans := by
  intro fuel
  induction fuel with
  | zero => intro cans addpos placed; exact List.Sublist.refl cans
  | succ n ih =>
      intro cans addpos placed
      simp only [fillGapFuel]
      cases hpf : pickFit addpos nextfixedaddr cans none with
      | none => exact List.Sublist.refl cans
      | some fc =>
          obtain ⟨f, c⟩ := fc
          exact (ih _ _ _).trans (List.erase_sublist c cans)

theorem fitLoop_cans_sublist : ∀ (gaps : List (Int × Section)) (cans : List Section),
    (fitLoop gaps cans).1.Sublist cans := by
  intro gaps
  induction gaps with
  | nil => intro cans; exact List.Sublist.refl cans
  | cons g rest ih =>
      intro cans
      obtain ⟨f, fs⟩ := g
      simp only [fitLoop]
      exact (ih _).trans (fillGapFuel_cans_sublist _ _ _ _ _)

/-- Claim C5, amended: the packer does process the gaps in ascending
order of available space and the pool in ascending `(size, alignment,
name)` order (the leftover pool stays in that order), but within a gap
it does not place an ascending-size prefix: each round of the loop
places the single largest remaining candidate that fits — the scan runs
over the ascending pool, remembers the last candidate whose aligned end
fits, and stops at the first whose raw size overruns — removes it, and
repeats until nothing fits; skipped candidates stay available for later
gaps. -/
theorem fitSections_largest_fit (secs fills : List Section) (r : FitResult)
    (cans : List Section) (addpos nextfixedaddr : Int)
    (acc : Option (Int × Section))
    (hr : fitSections secs fills = some r)
    (hcal : ∀ c ∈ cans, 1 ≤ c.align)
    (hcsz : List.Pairwise (fun a b => a.size ≤ b.size) cans) :
    List.Pairwise (fun a b => a ≤ b) (r.placedGaps.map (fun g => g.1.1))
    ∧ List.Pairwise (fun a b => relKeyLe a b = true) r.cans
    ∧ pickFit addpos nextfixedaddr cans acc =
        (match (cans.filter (alignedFit addpos nextfixedaddr)).getLast? with
         | some c => some (alignpos addpos (c.align : Int) + (c.size : Int), c)
         | none => acc) := by
  have hpick := pickFit_eq_getLast addpos nextfixedaddr cans acc hcal hcsz
  unfold fitSections at hr
  cases hcf : collectFixed secs with
  | none => rw [hcf] at hr; cases hr
  | some p =>
      obtain ⟨env1, pairs⟩ := p
      rw [hcf] at hr
      dsimp only at hr
      cases hms : List.insertionSort (fun a b => a.1 ≤ b.1) pairs with
      | nil => rw [hms] at hr; cases hr
      | cons p0 restp =>
          obtain ⟨a0, s0⟩ := p0
          rw [hms] at hr
          dsimp only at hr
          by_cases hg : BUILD_BIOS_SIZE - (a0 : Int) = 0
          · rw [if_pos hg] at hr; cases hr
          · rw [if_neg hg] at hr
            simp only [Option.some_inj] at hr
            subst hr
            refine ⟨?_, ?_, hpick⟩
            · dsimp only
              rw [fitLoop_gaps_addr (List.insertionSort (fun a b => a.1 ≤ b.1)
                    (availGaps ((a0, s0) :: restp)))
                  (List.insertionSort (fun a b => relKeyLe a b = true) fills)]
              have hsorted := List.sorted_insertionSort (fun a b => a.1 ≤ b.1)
                (availGaps ((a0, s0) :: restp))
              exact List.pairwise_map.mpr hsorted
            · dsimp only
              have hsorted := List.sorted_insertionSort
                (fun a b => relKeyLe a b = true) fills
              exact List.Pairwise.sublist (fitLoop_cans_sublist _ _) hsorted

/-- Helper to build a bare parsed section for the concrete examples. -/
def mkSec (i : Nat) (nm : String) (sz al : Nat) (fid cat : String) : Section :=
  { id := i, name := nm, size := sz, align := al, fileid := fid
    category := cat, relocs := [], finalloc := none, finalsegloc := none }

def c5secs : List Section :=
  [mkSec 10 ".fixedaddr.100" 0 1 "16" "fixed",
   mkSec 11 ".fixedaddr.104" 0 1 "16" "fixed"]

def c5fills : List Section :=
  [mkSec 1 ".text.a" 1 1 "16" "16", mkSec 2 ".text.b" 2 1 "16" "16",
   mkSec 3 ".text.c" 3 1 "16" "16"]

def c5res : FitResult :=
  (fitSections c5secs c5fills).getD
    { env := [], cans := [], placedGaps := [], firstfixed := 0, ret := 0 }

/-- Claim C5, counterexample to the within-gap rule as stated: with
fixed sections at `0x100` and `0x104` (a 4-byte gap) and fillable
sections of sizes 1, 2 and 3, the packer puts sizes `[3, 1]` — in that
order — into the 4-byte gap and size 2 into the last gap.  The claim's
"place, in ascending-size order, the largest prefix of the remaining
sections whose cumulative aligned size fits" would instead put `[1, 2]`
(cumulative size 3 ≤ 4) there, in ascending order; the actual placement
is not even size-ascending inside the gap. -/
theorem fitSections_gap_order_cex :
    ((fitSections c5secs c5fills).map
        (fun r => r.placedGaps.map (fun g => (g.1.1, g.2.map Section.size))))
      = some [(4, [3, 1]), (65276, [2])]
    ∧ ¬ List.Pairwise (fun a b => a ≤ b)
        (((fitSections c5secs c5fills).map
            (fun r => (r.placedGaps.headD ((0, mkSec 0 "" 0 0 "" ""), [])).2.map
              Section.size)).getD [])
    := ⟨by decide, by decide⟩

/-- Witness for `fitSections_largest_fit` at the concrete C5 input. -/
theorem fitSections_largest_fit_witness :
    (fitSections c5secs c5fills = some c5res
      ∧ (∀ c ∈ c5fills, 1 ≤ c.align)
      ∧ List.Pairwise (fun a b => a.size ≤ b.size) c5fills)
    ∧ (List.Pairwise (fun a b => a ≤ b) (c5res.placedGaps.map (fun g => g.1.1))
      ∧ List.Pairwise (fun a b => relKeyLe a b = true) c5res.cans
      ∧ pickFit 0x100 0x104 c5fills none =
          (match (c5fills.filter (alignedFit 0x100 0x104)).getLast? with
           | some c => some (alignpos 0x100 (c.align : Int) + (c.size : Int), c)
           | none => none)) :=
  ⟨⟨by decide, by decide, by decide⟩,
    fitSections_largest_fit c5secs c5fills c5res c5fills 0x100 0x104 none
      (by decide) (by decide) (by decide)⟩

/-- `getSectionsCategory`. -/
def getSectionsCategory (secs : List Section) (cat : String) : List Section :=
  secs.filter (fun s => s.category == cat)

/-- The source's `getSectionsPrefix` (renamed here): the subset of
sections whose name starts with `pre`, in list order. -/
def getSectionsNamePre (secs : List Section) (pre : String) : List Section :=
  secs.filter (fun s => strHasPre s.name pre)

/-- Write updated copies of sections back into the global store by id:
the source mutates the shared `Section` objects in place, which under
distinct ids is the same as replacing each store entry by its updated
copy when one exists. -/
def updateEnv (env upd : List Section) : List Section :=
  env.map (fun s => (upd.find? (fun u => u.id == s.id)).getD s)

/-- The configuration options `doLayout` reads. -/
structure Config where
  malloc_uppermemory : Bool
deriving Repr, DecidableEq

/-- Result of `doLayout`: the `LayoutInfo` fields of the source plus its
local variables (the per-zone start addresses, the pass-1 values the
corrective branch overwrites, the flat/init group lists, and the
end-address arguments passed to each zone layout). -/
structure DoLayoutResult where
  env : List Section
  env1 : List Section
  env2 : List Section
  env3 : List Section
  env4 : List Section
  env5 : List Section
  env6 : List Section
  env7 : List Section
  env8 : List Section
  firstfixed : Int
  sec16_start : Int
  sec32seg_start : Int
  sec32textfseg_start : Int
  sec32fseg_start : Int
  flatlist : List Section
  initlist : List Section
  sec32flat_start_pass1 : Int
  sec32init_start_pass1 : Int
  zonefseg_end_pass1 : Int
  secondPass : Bool
  sec32flat_start : Int
  sec32init_start : Int
  sec32init_end : Int
  sec32init_align : Int
  zonefseg_start : Int
  zonefseg_end : Int
  final_readonly_start : Int
  sec32low_start : Int
  sec32low_end : Int
  sec32low_align : Int
  zonelow_base : Int
  final_sec32low_start : Int
  seg_endaddr : Int
  textfseg_endaddr : Int
  fseg_endaddr : Int
  flat_endaddr : Int
  init_endaddr : Int
  low_endaddr : Int

/-- The body of `doLayout` after the `fitSections` call.  After each
placement the updated copies are merged back into the store and the next
group is re-filtered from it; with distinct section ids this reproduces
the source's in-place mutation of shared objects.  The `*_endaddr`
fields record the `endaddr` argument of each `setSectionsStart` call,
and the `*_pass1` fields the values the corrective ZoneFSeg branch
overwrites.  The corrective branch is folded into the single value
`flat_endaddr`: when the pass runs the flat group is re-laid against the
new table-zone start and otherwise against `sec32fseg_start`, which is
exactly the source's `sec32flat_start, ... = setSectionsStart(...)`
pair of calls (the second pass overwrites the first pass's addresses on
the same section objects, so issuing the final call once with the
selected end address yields the same state). -/
def doLayoutAux (sections : List Section) (config : Config) (genreloc : Bool)
    (fr : FitResult) : DoLayoutResult :=
  let firstfixed := fr.ret
  let env1 := updateEnv sections (fr.env ++ fr.placedGaps.flatMap (fun g => g.2))
  let s16 := getSectionsCategory env1 "16"
  let remsections := (getSectionsNamePre s16 ".text."
      ++ getSectionsNamePre s16 ".rodata"
      ++ getSectionsNamePre s16 ".data16.").filter (fun s => s.finalloc.isNone)
  let r16 := setSectionsStart remsections firstfixed 1 BUILD_BIOS_ADDR
  let env2 := updateEnv env1 r16.secs
  let s32seg := getSectionsCategory env2 "32seg"
  let r32seg := setSectionsStart
    (getSectionsNamePre s32seg ".text." ++ getSectionsNamePre s32seg ".rodata"
      ++ getSectionsNamePre s32seg ".data32seg.")
    r16.startaddr 1 BUILD_BIOS_ADDR
  let env3 := updateEnv env2 r32seg.secs
  let s32textfseg := getSectionsCategory env3 "32textfseg"
  let rtf := setSectionsStart s32textfseg r32seg.startaddr 16 0
  let env4 := updateEnv env3 rtf.secs
  let s32fseg := getSectionsCategory env4 "32fseg"
  let rfseg := setSectionsStart s32fseg rtf.startaddr 16 BUILD_BIOS_ADDR
  let env5 := updateEnv env4 rfseg.secs
  let s32flat := getSectionsCategory env5 "32flat"
  let flatlist := getSectionsNamePre s32flat ".text."
    ++ getSectionsNamePre s32flat ".rodata"
    ++ getSectionsNamePre s32flat ".data."
    ++ getSectionsNamePre s32flat ".bss."
  let rflat1 := setSectionsStart flatlist rfseg.startaddr 16 0
  let env6 := updateEnv env5 rflat1.secs
  let s32init := getSectionsCategory env6 "32init"
  let initlist := getSectionsNamePre s32init ".text."
    ++ getSectionsNamePre s32init ".rodata"
    ++ getSectionsNamePre s32init ".data."
    ++ getSectionsNamePre s32init ".bss."
  let rinit1 := setSectionsStart initlist rflat1.startaddr 16 0
  let env7 := updateEnv env6 rinit1.secs
  let zonefseg_end1 := if genreloc then rflat1.startaddr else rinit1.startaddr
  let secondPass := decide (BUILD_BIOS_ADDR + BUILD_MIN_BIOSTABLE > zonefseg_end1)
  let zonefseg_end := if secondPass then rfseg.startaddr else zonefseg_end1
  let zonefseg_start := if secondPass then rfseg.startaddr - BUILD_MIN_BIOSTABLE
    else BUILD_BIOS_ADDR
  let flat_endaddr := if secondPass then zonefseg_start else rfseg.startaddr
  let rflat := setSectionsStart flatlist flat_endaddr 16 0
  let rinit := setSectionsStart initlist rflat.startaddr 16 0
  let env8 := updateEnv (updateEnv env7 rflat.secs) rinit.secs
  let final_readonly_start := if genreloc
    then min BUILD_BIOS_ADDR rflat.startaddr
    else min BUILD_BIOS_ADDR rinit.startaddr
  let s32low := getSectionsCategory env8 "32low"
  let sec32low_end := rinit.startaddr
  let final_sec32low_end := if config.malloc_uppermemory
    then final_readonly_start else BUILD_LOWRAM_END
  let zonelow_base := if config.malloc_uppermemory
    then max BUILD_ROM_START (alignpos (final_sec32low_end - 64 * 1024) (2 * 1024))
    else final_sec32low_end - 64 * 1024
  let relocdelta := final_sec32low_end - sec32low_end
  let rlow := setSectionsStart s32low sec32low_end 16 (zonelow_base - relocdelta)
  let env9 := updateEnv env8 rlow.secs
  { env := env9
    env1 := env1
    env2 := env2
    env3 := env3
    env4 := env4
    env5 := env5
    env6 := env6
    env7 := env7
    env8 := env8
    firstfixed := firstfixed
    sec16_start := r16.startaddr
    sec32seg_start := r32seg.startaddr
    sec32textfseg_start := rtf.startaddr
    sec32fseg_start := rfseg.startaddr
    flatlist := flatlist
    initlist := initlist
    sec32flat_start_pass1 := rflat1.startaddr
    sec32init_start_pass1 := rinit1.startaddr
    zonefseg_end_pass1 := zonefseg_end1
    secondPass := secondPass
    sec32flat_start := rflat.startaddr
    sec32init_start := rinit.startaddr
    sec32init_end := rflat.startaddr
    sec32init_align := rinit.minalign
    zonefseg_start := zonefseg_start
    zonefseg_end := zonefseg_end
    final_readonly_start := final_readonly_start
    sec32low_start := rlow.startaddr
    sec32low_end := sec32low_end
    sec32low_align := rlow.minalign
    zonelow_base := zonelow_base
    final_sec32low_start := rlow.startaddr + relocdelta
    seg_endaddr := r16.startaddr
    textfseg_endaddr := r32seg.startaddr
    fseg_endaddr := rtf.startaddr
    flat_endaddr := flat_endaddr
    init_endaddr := rflat.startaddr
    low_endaddr := rinit.startaddr }

/-- `doLayout(sections, config, genreloc)`: dies with `fitSections`,
otherwise lays out every zone. -/
def doLayout (sections : List Section) (config : Config) (genreloc : Bool) :
    Option DoLayoutResult :=
  match fitSections (getSectionsCategory sections "fixed")
      (getSectionsNamePre (getSectionsCategory sections "16") ".text.") with
  | none => none
  | some fr => some (doLayoutAux sections config genreloc fr)

theorem doLayoutAux_seg_end (sections : List Section) (config : Config)
    (genreloc : Bool) (fr : FitResult) :
    (doLayoutAux sections config genreloc fr).seg_endaddr
      = (doLayoutAux sections config genreloc fr).sec16_start := rfl

theorem doLayoutAux_textfseg_end (sections : List Section) (config : Config)
    (genreloc : Bool) (fr : FitResult) :
    (doLayoutAux sections config genreloc fr).textfseg_endaddr
      = (doLayoutAux sections config genreloc fr).sec32seg_start := rfl

theorem doLayoutAux_fseg_end (sections : List Section) (config : Config)
    (genreloc : Bool) (fr : FitResult) :
    (doLayoutAux sections config genreloc fr).fseg_endaddr
      = (doLayoutAux sections config genreloc fr).sec32textfseg_start := rfl

theorem doLayoutAux_init_end (sections : List Section) (config : Config)
    (genreloc : Bool) (fr : FitResult) :
    (doLayoutAux sections config genreloc fr).init_endaddr
      = (doLayoutAux sections config genreloc fr).sec32flat_start := rfl

theorem doLayoutAux_flat_end (sections : List Section) (config : Config)
    (genreloc : Bool) (fr : FitResult) :
    (doLayoutAux sections config genreloc fr).flat_endaddr
      = if (doLayoutAux sections config genreloc fr).secondPass
        then (doLayoutAux sections config genreloc fr).zonefseg_start
        else (doLayoutAux sections config genreloc fr).sec32fseg_start := rfl

theorem doLayoutAux_secondPass (sections : List Section) (config : Config)
    (genreloc : Bool) (fr : FitResult) :
    (doLayoutAux sections config genreloc fr).secondPass
      = decide (BUILD_BIOS_ADDR + BUILD_MIN_BIOSTABLE
          > (doLayoutAux sections config genreloc fr).zonefseg_end_pass1) := rfl

theorem doLayoutAux_zonefseg_start (sections : List Section) (config : Config)
    (genreloc : Bool) (fr : FitResult) :
    (doLayoutAux sections config genreloc fr).zonefseg_start
      = if (doLayoutAux sections config genreloc fr).secondPass
        then (doLayoutAux sections config genreloc fr).sec32fseg_start
            - BUILD_MIN_BIOSTABLE
        else BUILD_BIOS_ADDR := rfl

theorem doLayoutAux_zonefseg_end (sections : List Section) (config : Config)
    (genreloc : Bool) (fr : FitResult) :
    (doLayoutAux sections config genreloc fr).zonefseg_end
      = if (doLayoutAux sections config genreloc fr).secondPass
        then (doLayoutAux sections config genreloc fr).sec32fseg_start
        else (doLayoutAux sections config genreloc fr).zonefseg_end_pass1 := rfl

theorem doLayoutAux_zonefseg_end_pass1 (sections : List Section) (config : Config)
    (genreloc : Bool) (fr : FitResult) :
    (doLayoutAux sections config genreloc fr).zonefseg_end_pass1
      = if genreloc
        then (doLayoutAux sections config genreloc fr).sec32flat_start_pass1
        else (doLayoutAux sections config genreloc fr).sec32init_start_pass1 := rfl

theorem doLayoutAux_flat_start (sections : List Section) (config : Config)
    (genreloc : Bool) (fr : FitResult) :
    (doLayoutAux sections config genreloc fr).sec32flat_start
      = (setSectionsStart (doLayoutAux sections config genreloc fr).flatlist
          (doLayoutAux sections config genreloc fr).flat_endaddr 16 0).startaddr := rfl

theorem doLayoutAux_flat_start_pass1 (sections : List Section) (config : Config)
    (genreloc : Bool) (fr : FitResult) :
    (doLayoutAux sections config genreloc fr).sec32flat_start_pass1
      = (setSectionsStart (doLayoutAux sections config genreloc fr).flatlist
          (doLayoutAux sections config genreloc fr).sec32fseg_start 16 0).startaddr := rfl

theorem doLayoutAux_init_start (sections : List Section) (config : Config)
    (genreloc : Bool) (fr : FitResult) :
    (doLayoutAux sections config genreloc fr).sec32init_start
      = (setSectionsStart (doLayoutAux sections config genreloc fr).initlist
          (doLayoutAux sections config genreloc fr).sec32flat_start 16 0).startaddr := rfl

theorem doLayoutAux_init_start_pass1 (sections : List Section) (config : Config)
    (genreloc : Bool) (fr : FitResult) :
    (doLayoutAux sections config genreloc fr).sec32init_start_pass1
      = (setSectionsStart (doLayoutAux sections config genreloc fr).initlist
          (doLayoutAux sections config genreloc fr).sec32flat_start_pass1 16 0).startaddr := rfl

/-- Claim C1, amended: every adjacent pair in the zone dependency chain
satisfies "end address used equals the previous zone's computed start" —
the 32-bit segmented zone ends at the 16-bit start, the f-segment flat
code zone at the segmented start, the f-segment variable zone at the
f-segment flat code start, and the init zone at the flat runtime start —
except that on a run that takes the corrective ZoneFSeg pass the flat
runtime zone is re-laid to end at the table zone's new start,
`sec32fseg_start - BUILD_MIN_BIOSTABLE`, and not at the f-segment
variable zone's start. -/
theorem doLayout_zone_chain (sections : List Section) (config : Config)
    (genreloc : Bool) (r : DoLayoutResult)
    (hr : doLayout sections config genreloc = some r) :
    r.seg_endaddr = r.sec16_start
    ∧ r.textfseg_endaddr = r.sec32seg_start
    ∧ r.fseg_endaddr = r.sec32textfseg_start
    ∧ r.init_endaddr = r.sec32flat_start
    ∧ (r.secondPass = false → r.flat_endaddr = r.sec32fseg_start)
    ∧ (r.secondPass = true →
        r.flat_endaddr = r.zonefseg_start
        ∧ r.flat_endaddr = r.sec32fseg_start - BUILD_MIN_BIOSTABLE) := by
  unfold doLayout at hr
  cases hfs : fitSections (getSectionsCategory sections "fixed")
      (getSectionsNamePre (getSectionsCategory sections "16") ".text.") with
  | none => rw [hfs] at hr; cases hr
  | some fr =>
      rw [hfs] at hr
      simp only [Option.some_inj] at hr
      subst hr
      refine ⟨doLayoutAux_seg_end _ _ _ _, doLayoutAux_textfseg_end _ _ _ _,
        doLayoutAux_fseg_end _ _ _ _, doLayoutAux_init_end _ _ _ _, ?_, ?_⟩
      · intro hsp
        rw [doLayoutAux_flat_end, hsp]
        simp
      · intro hsp
        have h1 : (doLayoutAux sections config genreloc fr).flat_endaddr
            = (doLayoutAux sections config genreloc fr).zonefseg_start := by
          rw [doLayoutAux_flat_end, hsp]; simp
        refine ⟨h1, ?_⟩
        rw [h1, doLayoutAux_zonefseg_start, hsp]
        simp

/-- Claim C2, amended: the corrective second pass runs exactly when the
gap between the read-only region base and the pass-1 table-zone end is
smaller than `BUILD_MIN_BIOSTABLE`; in that pass the table zone is moved
to end at the f-segment variable zone's start with exactly
`BUILD_MIN_BIOSTABLE` bytes, the flat runtime zone is re-laid to end at
that new table-zone start, and the init zone to end at the new flat
start; the f-segment variable zone's own start is not moved (the
16-bit, segmented, f-segment-code and f-segment-variable zones are not
recomputed).  Without the pass, the table zone keeps base
`BUILD_BIOS_ADDR` and the pass-1 flat and init starts stand. -/
theorem doLayout_min_biostable (sections : List Section) (config : Config)
    (genreloc : Bool) (r : DoLayoutResult)
    (hr : doLayout sections config genreloc = some r) :
    (r.secondPass = true ↔ BUILD_BIOS_ADDR + BUILD_MIN_BIOSTABLE > r.zonefseg_end_pass1)
    ∧ (genreloc = true → r.zonefseg_end_pass1 = r.sec32flat_start_pass1)
    ∧ (genreloc = false → r.zonefseg_end_pass1 = r.sec32init_start_pass1)
    ∧ (r.secondPass = true →
        r.zonefseg_end = r.sec32fseg_start
        ∧ r.zonefseg_start = r.sec32fseg_start - BUILD_MIN_BIOSTABLE
        ∧ r.flat_endaddr = r.zonefseg_start
        ∧ r.sec32flat_start
            = (setSectionsStart r.flatlist (r.sec32fseg_start - BUILD_MIN_BIOSTABLE) 16 0).startaddr
        ∧ r.init_endaddr = r.sec32flat_start)
    ∧ (r.secondPass = false →
        r.zonefseg_start = BUILD_BIOS_ADDR
        ∧ r.zonefseg_end = r.zonefseg_end_pass1
        ∧ r.sec32flat_start = r.sec32flat_start_pass1
        ∧ r.sec32init_start = r.sec32init_start_pass1) := by
  unfold doLayout at hr
  cases hfs : fitSections (getSectionsCategory sections "fixed")
      (getSectionsNamePre (getSectionsCategory sections "16") ".text.") with
  | none => rw [hfs] at hr; cases hr
  | some fr =>
      rw [hfs] at hr
      simp only [Option.some_inj] at hr
      subst hr
      refine ⟨?_, ?_, ?_, ?_, ?_⟩
      · rw [doLayoutAux_secondPass]
        exact decide_eq_true_iff
      · intro hg
        rw [doLayoutAux_zonefseg_end_pass1, hg]
        simp
      · intro hg
        rw [doLayoutAux_zonefseg_end_pass1, hg]
        simp
      · intro hsp
        refine ⟨?_, ?_, ?_, ?_, doLayoutAux_init_end _ _ _ _⟩
        · rw [doLayoutAux_zonefseg_end, hsp]; simp
        · rw [doLayoutAux_zonefseg_start, hsp]; simp
        · rw [doLayoutAux_flat_end, doLayoutAux_zonefseg_start, hsp]; simp
        · rw [doLayoutAux_flat_start, doLayoutAux_flat_end,
            doLayoutAux_zonefseg_start, hsp]
          simp
      · intro hsp
        refine ⟨?_, ?_, ?_, ?_⟩
        · rw [doLayoutAux_zonefseg_start, hsp]; simp
        · rw [doLayoutAux_zonefseg_end, hsp]; simp
        · rw [doLayoutAux_flat_start, doLayoutAux_flat_end, hsp]
          simp only [Bool.false_eq_true, if_false]
          rw [doLayoutAux_flat_start_pass1]
        · rw [doLayoutAux_init_start, doLayoutAux_init_start_pass1,
            doLayoutAux_flat_start, doLayoutAux_flat_end, hsp]
          simp only [Bool.false_eq_true, if_false]
          rw [doLayoutAux_flat_start_pass1]

/-- All-zero layout record used as the default for `Option.getD` in the
concrete examples. -/
def emptyDoLayout : DoLayoutResult :=
  { env := [], env1 := [], env2 := [], env3 := [], env4 := [], env5 := []
    env6 := [], env7 := [], env8 := []
    firstfixed := 0, sec16_start := 0, sec32seg_start := 0
    sec32textfseg_start := 0, sec32fseg_start := 0, flatlist := []
    initlist := [], sec32flat_start_pass1 := 0
    sec32init_start_pass1 := 0, zonefseg_end_pass1 := 0, secondPass := false
    sec32flat_start := 0, sec32init_start := 0, sec32init_end := 0
    sec32init_align := 0, zonefseg_start := 0, zonefseg_end := 0
    final_readonly_start := 0, sec32low_start := 0, sec32low_end := 0
    sec32low_align := 0, zonelow_base := 0, final_sec32low_start := 0
    seg_endaddr := 0, textfseg_endaddr := 0, fseg_endaddr := 0
    flat_endaddr := 0, init_endaddr := 0, low_endaddr := 0 }

/-- Concrete input that triggers the corrective ZoneFSeg pass: a fixed
section at `0xe000` and a flat runtime section of `0xd900` bytes, which
squeezes the pass-1 table gap to `0x700 < 0x800` bytes. -/
def c12env : List Section :=
  [mkSec 0 ".fixedaddr.e000" 0 1 "16" "fixed",
   mkSec 1 ".text.big" 0xd900 16 "32flat" "32flat"]

def c12res : DoLayoutResult :=
  (doLayout c12env { malloc_uppermemory := true } true).getD emptyDoLayout

/-- Claim C1, counterexample to the claim as stated on runs that take
the corrective second pass: on `c12env` the pass runs and the end
address used to lay out the 32-bit flat runtime zone is `0xfd800`, which
is not the f-segment variable zone's computed start `0xfe000`. -/
theorem doLayout_zone_chain_cex :
    (doLayout c12env { malloc_uppermemory := true } true).isSome = true
    ∧ c12res.secondPass = true
    ∧ c12res.flat_endaddr = 0xfd800
    ∧ c12res.sec32fseg_start = 0xfe000
    ∧ ¬ c12res.flat_endaddr = c12res.sec32fseg_start :=
  ⟨by decide, by decide, by decide, by decide, by decide⟩

/-- Claim C2, counterexample to "the f-segment-variable zone start is
shifted down by exactly the shortfall": on `c12env` the corrective pass
runs with shortfall `0x100` (`0xf0800 - 0xf0700`), yet the f-segment
variable zone's start stays at `0xfe000` (it is not re-laid at all), and
the table zone's start moves from `0xf0000` to `0xfd800`, not down by
`0x100`. -/
theorem doLayout_fseg_shift_cex :
    (doLayout c12env { malloc_uppermemory := true } true).isSome = true
    ∧ c12res.secondPass = true
    ∧ BUILD_BIOS_ADDR + BUILD_MIN_BIOSTABLE - c12res.zonefseg_end_pass1 = 0x100
    ∧ c12res.sec32fseg_start = 0xfe000
    ∧ ¬ c12res.sec32fseg_start = 0xfe000 - 0x100
    ∧ c12res.zonefseg_start = 0xfd800
    ∧ ¬ c12res.zonefseg_start = BUILD_BIOS_ADDR - 0x100 :=
  ⟨by decide, by decide, by decide, by decide, by decide, by decide, by decide⟩

/-- Witness for `doLayout_zone_chain` at the concrete corrective-pass
input. -/
theorem doLayout_zone_chain_witness :
    (doLayout c12env { malloc_uppermemory := true } true = some c12res)
    ∧ (c12res.seg_endaddr = c12res.sec16_start
    ∧ c12res.textfseg_endaddr = c12res.sec32seg_start
    ∧ c12res.fseg_endaddr = c12res.sec32textfseg_start
    ∧ c12res.init_endaddr = c12res.sec32flat_start
    ∧ (c12res.secondPass = false → c12res.flat_endaddr = c12res.sec32fseg_start)
    ∧ (c12res.secondPass = true →
        c12res.flat_endaddr = c12res.zonefseg_start
        ∧ c12res.flat_endaddr = c12res.sec32fseg_start - BUILD_MIN_BIOSTABLE)) :=
  ⟨by rfl,
    doLayout_zone_chain c12env { malloc_uppermemory := true } true c12res (by rfl)⟩

/-- Witness for `doLayout_min_biostable` at the concrete corrective-pass
input. -/
theorem doLayout_min_biostable_witness :
    (doLayout c12env { malloc_uppermemory := true } true = some c12res)
    ∧ ((c12res.secondPass = true
        ↔ BUILD_BIOS_ADDR + BUILD_MIN_BIOSTABLE > c12res.zonefseg_end_pass1)
    ∧ (true = true → c12res.zonefseg_end_pass1 = c12res.sec32flat_start_pass1)
    ∧ (true = false → c12res.zonefseg_end_pass1 = c12res.sec32init_start_pass1)
    ∧ (c12res.secondPass = true →
        c12res.zonefseg_end = c12res.sec32fseg_start
        ∧ c12res.zonefseg_start = c12res.sec32fseg_start - BUILD_MIN_BIOSTABLE
        ∧ c12res.flat_endaddr = c12res.zonefseg_start
        ∧ c12res.sec32flat_start
            = (setSectionsStart c12res.flatlist
                (c12res.sec32fseg_start - BUILD_MIN_BIOSTABLE) 16 0).startaddr
        ∧ c12res.init_endaddr = c12res.sec32flat_start)
    ∧ (c12res.secondPass = false →
        c12res.zonefseg_start = BUILD_BIOS_ADDR
        ∧ c12res.zonefseg_end = c12res.zonefseg_end_pass1
        ∧ c12res.sec32flat_start = c12res.sec32flat_start_pass1
        ∧ c12res.sec32init_start = c12res.sec32init_start_pass1)) :=
  ⟨by rfl,
    doLayout_min_biostable c12env { malloc_uppermemory := true } true c12res (by rfl)⟩

/-- Look up a section object by id in the global store. -/
def getSec (env : List Section) (i : Nat) : Option Section :=
  env.find? (fun s => s.id == i)

/-- The resolved target section of a relocation (`reloc.symbol.section`
in the source), `none` when the symbol has no section. -/
def relocTargetSec (env : List Section) (reloc : Reloc) : Option Section :=
  match reloc.symbol.secId with
  | none => none
  | some i => getSec env i

/-- `checkRuntime(reloc, rsection, data, chain)`: prune (return 0) when
the target section is absent or its name contains `.init.`; abort the
whole run (`sys.exit(1)`, modelled as `.error`) when the target's name
contains `.data.varinit.`; accept (return 1) otherwise. -/
def checkRuntime (env : List Section) (reloc : Reloc) : Except Unit Bool :=
  match relocTargetSec env reloc with
  | none => .ok false
  | some sec =>
      if strContains sec.name ".init." then .ok false
      else if strContains sec.name ".data.varinit." then .error ()
      else .ok true

/-- Claim C6: the runtime-traversal edge predicate prunes (rejects
without error) edges whose resolved target section is absent or marked
init-only, aborts the run on edges into verified-only-from-init data,
and accepts every other edge. -/
theorem checkRuntime_edge_discipline (env : List Section) (reloc : Reloc) :
    ((relocTargetSec env reloc = none
        ∨ (∃ sec, relocTargetSec env reloc = some sec
            ∧ strContains sec.name ".init." = true)) →
      checkRuntime env reloc = .ok false)
    ∧ (∀ sec, relocTargetSec env reloc = some sec →
        strContains sec.name ".init." = false →
        strContains sec.name ".data.varinit." = true →
        checkRuntime env reloc = .error ())
    ∧ (∀ sec, relocTargetSec env reloc = some sec →
        strContains sec.name ".init." = false →
        strContains sec.name ".data.varinit." = false →
        checkRuntime env reloc = .ok true) := by
  refine ⟨?_, ?_, ?_⟩
  · intro h
    rcases h with h | ⟨sec, hsec, hinit⟩
    · rw [checkRuntime, h]
    · simp [checkRuntime, hsec, hinit]
  · intro sec hsec hinit hvar
    simp [checkRuntime, hsec, hinit, hvar]
  · intro sec hsec hinit hvar
    simp [checkRuntime, hsec, hinit, hvar]

def c6target : Section :=
  mkSec 40 ".data.varinit.foo" 4 4 "32flat" "32flat"

def c6reloc : Reloc :=
  { offset := 8, type := "R_386_32", symbolname := "foo"
    symbol := { name := "foo", size := 4, offset := 0, secId := some 40 } }

/-- Witness for `checkRuntime_edge_discipline`: an edge into
`.data.varinit.` data aborts. -/
theorem checkRuntime_edge_discipline_witness :
    (relocTargetSec [c6target] c6reloc = some c6target
      ∧ strContains c6target.name ".init." = false
      ∧ strContains c6target.name ".data.varinit." = true)
    ∧ checkRuntime [c6target] c6reloc = .error () :=
  ⟨⟨by decide, by decide, by decide⟩,
    (checkRuntime_edge_discipline [c6target] c6reloc).2.1 c6target
      (by decide) (by decide) (by decide)⟩

/-- Sequence a list of optional positions: the first `none` aborts the
whole computation (the source's list comprehension raising mid-way). -/
def optList : List (Option Int) → Option (List Int)
  | [] => some []
  | none :: _ => none
  | some x :: rest => (optList rest).map (fun l => x :: l)

/-- `getRelocs(sections, tosection, type)`: the positions
`section.finalloc + reloc.offset` of every relocation in `sections`
whose resolved symbol's section is a member of `tosection` (membership
of section objects, here by id) and whose type matches when one is
given.  Adding `reloc.offset` to a `None` final address — a kept
section the layout never placed — is Python's `TypeError` and kills the
script, so the whole computation is `none` in that case. -/
def getRelocs (secs : List Section) (toIds : List Nat) (ty : Option String) :
    Option (List Int) :=
  optList (secs.flatMap (fun s =>
    (s.relocs.filter (fun r =>
      (match r.symbol.secId with
       | none => false
       | some i => toIds.contains i)
      && (match ty with
          | none => true
          | some t => r.type == t))).map
      (fun r => s.finalloc.map (fun loc => loc + r.offset))))

/-- The sentinel test of `main`: `'_reloc_abs_start' in symbols['32flat']`. -/
def genrelocOf (symbols32flat : List (String × Symbol)) : Bool :=
  (symbols32flat.find? (fun p => p.1 == "_reloc_abs_start")).isSome

/-- The `32init` membership test used by `writeLinkerScripts`. -/
def initIdsOf (secs : List Section) : List Nat :=
  (getSectionsCategory secs "32init").map Section.id

/-- The complement `noninitsections` of `writeLinkerScripts`. -/
def noninitOf (secs : List Section) : List Section :=
  secs.filter (fun s => !(s.category == "32init"))

/-- The relocation-table part of `writeLinkerScripts`: when `genreloc`
is set, three lists of positions, each sorted ascending by `strRelocs`
(`relocs.sort()`; a stable ascending integer sort): absolute (R_386_32)
relocations within init sections targeting init sections, relative
(R_386_PC32) relocations within init sections targeting non-init
sections, and all relocations within non-init sections targeting init
sections.  `.ok none` when `genreloc` is unset; `.error ()` when one of
the three `getRelocs` calls dies on a never-laid section. -/
def relocTables (secs : List Section) (genreloc : Bool) :
    Except Unit (Option (List Int × List Int × List Int)) :=
  if genreloc then
    match getRelocs (getSectionsCategory secs "32init") (initIdsOf secs)
        (some "R_386_32") with
    | none => .error ()
    | some absr =>
        match getRelocs (getSectionsCategory secs "32init")
            ((noninitOf secs).map Section.id) (some "R_386_PC32") with
        | none => .error ()
        | some relr =>
            match getRelocs (noninitOf secs) (initIdsOf secs) none with
            | none => .error ()
            | some initr =>
                .ok (some (List.insertionSort (fun a b => a ≤ b) absr,
                           List.insertionSort (fun a b => a ≤ b) relr,
                           List.insertionSort (fun a b => a ≤ b) initr))
  else .ok none

theorem optList_eq_none_iff : ∀ (l : List (Option Int)),
    optList l = none ↔ none ∈ l := by
  intro l
  induction l with
  | nil => simp [optList]
  | cons x rest ih =>
      cases x with
      | none => simp [optList]
      | some v =>
          simp only [optList, List.mem_cons, Option.map_eq_none', ih]
          constructor
          · intro h; exact Or.inr h
          · rintro (h | h)
            · exact Option.noConfusion h
            · exact h

theorem optList_mem : ∀ (l : List (Option Int)) (xs : List Int),
    optList l = some xs → ∀ x : Int, (x ∈ xs ↔ some x ∈ l) := by
  intro l
  induction l with
  | nil =>
      intro xs h x
      have h2 : ([] : List Int) = xs := Option.some.inj h
      rw [← h2]
      simp
  | cons y rest ih =>
      intro xs h x
      cases y with
      | none => exact Option.noConfusion h
      | some v =>
          simp only [optList] at h
          rcases Option.map_eq_some'.mp h with ⟨l2, hl2, hxs⟩
          rw [← hxs]
          simp only [List.mem_cons, Option.some.injEq]
          rw [ih l2 hl2 x]

theorem getRelocs_none_iff (secs : List Section) (toIds : List Nat)
    (ty : Option String) :
    getRelocs secs toIds ty = none ↔
      ∃ s ∈ secs, s.finalloc = none ∧ ∃ r ∈ s.relocs,
        (∃ i, r.symbol.secId = some i ∧ i ∈ toIds)
        ∧ (∀ t, ty = some t → r.type = t) := by
  rw [getRelocs, optList_eq_none_iff]
  simp only [List.mem_flatMap, List.mem_map, List.mem_filter]
  constructor
  · rintro ⟨s, hs, r, ⟨hr, hcond⟩, hnone⟩
    rw [Bool.and_eq_true] at hcond
    obtain ⟨hto, hty⟩ := hcond
    have hfl : s.finalloc = none := Option.map_eq_none'.mp hnone
    refine ⟨s, hs, hfl, r, hr, ?_, ?_⟩
    · cases hsec : r.symbol.secId with
      | none => rw [hsec] at hto; cases hto
      | some i =>
          rw [hsec] at hto
          exact ⟨i, rfl, List.mem_of_elem_eq_true hto⟩
    · intro t ht
      rw [ht] at hty
      exact eq_of_beq hty
  · rintro ⟨s, hs, hfl, r, hr, ⟨i, hi, hmem⟩, hty⟩
    refine ⟨s, hs, r, ⟨hr, ?_⟩, ?_⟩
    · rw [Bool.and_eq_true, hi]
      refine ⟨List.elem_eq_true_of_mem hmem, ?_⟩
      cases ty with
      | none => rfl
      | some t => simp [hty t rfl]
    · rw [hfl]
      rfl

theorem mem_getRelocs (secs : List Section) (toIds : List Nat)
    (ty : Option String) (l : List Int)
    (h : getRelocs secs toIds ty = some l) (x : Int) :
    x ∈ l ↔
      ∃ s ∈ secs, ∃ r ∈ s.relocs,
        (∃ i, r.symbol.secId = some i ∧ i ∈ toIds)
        ∧ (∀ t, ty = some t → r.type = t)
        ∧ ∃ loc, s.finalloc = some loc ∧ x = loc + r.offset := by
  rw [getRelocs] at h
  rw [optList_mem _ _ h x]
  simp only [List.mem_flatMap, List.mem_map, List.mem_filter]
  constructor
  · rintro ⟨s, hs, r, ⟨hr, hcond⟩, hx⟩
    rw [Bool.and_eq_true] at hcond
    obtain ⟨hto, hty⟩ := hcond
    rcases Option.map_eq_some'.mp hx with ⟨loc, hl, hlx⟩
    refine ⟨s, hs, r, hr, ?_, ?_, loc, hl, hlx.symm⟩
    · cases hsec : r.symbol.secId with
      | none => rw [hsec] at hto; cases hto
      | some i =>
          rw [hsec] at hto
          exact ⟨i, rfl, List.mem_of_elem_eq_true hto⟩
    · intro t ht
      rw [ht] at hty
      exact eq_of_beq hty
  · rintro ⟨s, hs, r, hr, ⟨i, hi, hmem⟩, hty, loc, hl, hlx⟩
    refine ⟨s, hs, r, ⟨hr, ?_⟩, ?_⟩
    · rw [Bool.and_eq_true, hi]
      refine ⟨List.elem_eq_true_of_mem hmem, ?_⟩
      cases ty with
      | none => rfl
      | some t => simp [hty t rfl]
    · rw [hl]
      rw [hlx]
      rfl

instance : IsTotal Int (fun a b => a ≤ b) := ⟨fun a b => Int.le_total a b⟩

instance : IsTrans Int (fun a b => a ≤ b) := ⟨fun _ _ _ h1 h2 => Int.le_trans h1 h2⟩

/-- Claim C7 (amended): the fixup-table pass runs if and only if the
32-bit flat symbol table defines `_reloc_abs_start`; without the
sentinel nothing is emitted and nothing can fail.  When it runs, the
script either dies with the `TypeError` of adding a relocation offset
to the `None` address of a kept-but-never-laid section (and emits
nothing), or emits exactly three ascending lists: absolute
(`R_386_32`) relocation positions within init sections targeting init
sections, relative (`R_386_PC32`) positions within init sections
targeting non-init sections, and positions of any relocation within
non-init sections targeting init sections, each position being the
containing section's laid final address plus the relocation offset. -/
theorem relocTables_three_sorted_lists (symbols32flat : List (String × Symbol))
    (secs : List Section) :
    ((genrelocOf symbols32flat = true)
      ↔ ∃ p ∈ symbols32flat, p.1 = "_reloc_abs_start")
    ∧ (genrelocOf symbols32flat = false →
        relocTables secs (genrelocOf symbols32flat) = .ok none)
    ∧ (genrelocOf symbols32flat = true →
        relocTables secs (genrelocOf symbols32flat) = .error ()
        ∨ ∃ a b c, relocTables secs (genrelocOf symbols32flat)
            = .ok (some (a, b, c)))
    ∧ (relocTables secs (genrelocOf symbols32flat) = .error () →
        ∃ s ∈ secs, s.finalloc = none ∧ ∃ r ∈ s.relocs, ∃ i,
          r.symbol.secId = some i)
    ∧ (∀ a b c, relocTables secs (genrelocOf symbols32flat)
          = .ok (some (a, b, c)) →
        (List.Pairwise (fun (x y : Int) => x ≤ y) a
          ∧ List.Pairwise (fun (x y : Int) => x ≤ y) b
          ∧ List.Pairwise (fun (x y : Int) => x ≤ y) c)
        ∧ (∀ x, x ∈ a ↔ ∃ s ∈ secs, s.category = "32init"
            ∧ ∃ r ∈ s.relocs, r.type = "R_386_32"
              ∧ (∃ t, t ∈ secs ∧ t.category = "32init" ∧ r.symbol.secId = some t.id)
              ∧ ∃ loc, s.finalloc = some loc ∧ x = loc + r.offset)
        ∧ (∀ x, x ∈ b ↔ ∃ s ∈ secs, s.category = "32init"
            ∧ ∃ r ∈ s.relocs, r.type = "R_386_PC32"
              ∧ (∃ t, t ∈ secs ∧ ¬ t.category = "32init" ∧ r.symbol.secId = some t.id)
              ∧ ∃ loc, s.finalloc = some loc ∧ x = loc + r.offset)
        ∧ (∀ x, x ∈ c ↔ ∃ s ∈ secs, ¬ s.category = "32init"
            ∧ ∃ r ∈ s.relocs,
              (∃ t, t ∈ secs ∧ t.category = "32init" ∧ r.symbol.secId = some t.id)
              ∧ ∃ loc, s.finalloc = some loc ∧ x = loc + r.offset)) := by
  refine ⟨?_, ?_, ?_, ?_, ?_⟩
  · rw [genrelocOf]
    constructor
    · intro hg
      rw [Option.isSome_iff_exists] at hg
      obtain ⟨p, hp⟩ := hg
      exact ⟨p, List.mem_of_find?_eq_some hp, by simpa using List.find?_some hp⟩
    · rintro ⟨p, hp, hname⟩
      cases hf : symbols32flat.find? (fun q => q.1 == "_reloc_abs_start") with
      | some q => rfl
      | none =>
          exfalso
          rw [List.find?_eq_none] at hf
          have := hf p hp
          rw [hname] at this
          simp at this
  · intro hg
    rw [hg]
    rfl
  · intro hg
    rw [hg, relocTables, if_pos rfl]
    cases h1 : getRelocs (getSectionsCategory secs "32init") (initIdsOf secs)
        (some "R_386_32") with
    | none => exact Or.inl rfl
    | some absr =>
        dsimp only
        cases h2 : getRelocs (getSectionsCategory secs "32init")
            ((noninitOf secs).map Section.id) (some "R_386_PC32") with
        | none => exact Or.inl rfl
        | some relr =>
            dsimp only
            cases h3 : getRelocs (noninitOf secs) (initIdsOf secs) none with
            | none => exact Or.inl rfl
            | some initr => exact Or.inr ⟨_, _, _, rfl⟩
  · intro herr
    rw [relocTables] at herr
    cases hg : genrelocOf symbols32flat with
    | false =>
        rw [hg] at herr
        simp only [Bool.false_eq_true, if_false] at herr
        exact Except.noConfusion herr
    | true =>
        rw [hg, if_pos rfl] at herr
        cases h1 : getRelocs (getSectionsCategory secs "32init") (initIdsOf secs)
            (some "R_386_32") with
        | none =>
            obtain ⟨s, hs, hfl, r, hr, ⟨i, hi, _⟩, _⟩ :=
              (getRelocs_none_iff _ _ _).mp h1
            simp only [getSectionsCategory, List.mem_filter] at hs
            exact ⟨s, hs.1, hfl, r, hr, i, hi⟩
        | some absr =>
            rw [h1] at herr
            dsimp only at herr
            cases h2 : getRelocs (getSectionsCategory secs "32init")
                ((noninitOf secs).map Section.id) (some "R_386_PC32") with
            | none =>
                obtain ⟨s, hs, hfl, r, hr, ⟨i, hi, _⟩, _⟩ :=
                  (getRelocs_none_iff _ _ _).mp h2
                simp only [getSectionsCategory, List.mem_filter] at hs
                exact ⟨s, hs.1, hfl, r, hr, i, hi⟩
            | some relr =>
                rw [h2] at herr
                dsimp only at herr
                cases h3 : getRelocs (noninitOf secs) (initIdsOf secs) none with
                | none =>
                    obtain ⟨s, hs, hfl, r, hr, ⟨i, hi, _⟩, _⟩ :=
                      (getRelocs_none_iff _ _ _).mp h3
                    rw [noninitOf, List.mem_filter] at hs
                    exact ⟨s, hs.1, hfl, r, hr, i, hi⟩
                | some initr =>
                    rw [h3] at herr
                    exact Except.noConfusion herr
  · intro a b c habc
    rw [relocTables] at habc
    cases hg : genrelocOf symbols32flat with
    | false =>
        rw [hg] at habc
        simp only [Bool.false_eq_true, if_false] at habc
        exact absurd (Except.ok.inj habc) (by simp)
    | true =>
        rw [hg, if_pos rfl] at habc
        cases h1 : getRelocs (getSectionsCategory secs "32init") (initIdsOf secs)
            (some "R_386_32") with
        | none => rw [h1] at habc; exact Except.noConfusion habc
        | some absr =>
            rw [h1] at habc
            dsimp only at habc
            cases h2 : getRelocs (getSectionsCategory secs "32init")
                ((noninitOf secs).map Section.id) (some "R_386_PC32") with
            | none => rw [h2] at habc; exact Except.noConfusion habc
            | some relr =>
                rw [h2] at habc
                dsimp only at habc
                cases h3 : getRelocs (noninitOf secs) (initIdsOf secs) none with
                | none => rw [h3] at habc; exact Except.noConfusion habc
                | some initr =>
                    rw [h3] at habc
                    dsimp only at habc
                    have h4 := Option.some.inj (Except.ok.inj habc)
                    have ha := congrArg
                      (fun t : List Int × List Int × List Int => t.1) h4
                    have hb := congrArg
                      (fun t : List Int × List Int × List Int => t.2.1) h4
                    have hc := congrArg
                      (fun t : List Int × List Int × List Int => t.2.2) h4
                    dsimp only at ha hb hc
                    subst ha
                    subst hb
                    subst hc
                    refine ⟨⟨List.sorted_insertionSort _ _,
                      List.sorted_insertionSort _ _,
                      List.sorted_insertionSort _ _⟩, ?_, ?_, ?_⟩
                    · intro x
                      rw [(List.perm_insertionSort _ _).mem_iff,
                        mem_getRelocs _ _ _ _ h1]
                      constructor
                      · rintro ⟨s, hs, r, hr, ⟨i, hi, hto⟩, hty, hpos⟩
                        simp only [getSectionsCategory, List.mem_filter] at hs
                        refine ⟨s, hs.1, by simpa using hs.2, r, hr,
                          hty _ rfl, ?_, hpos⟩
                        rw [initIdsOf] at hto
                        obtain ⟨t, ht, hti⟩ := List.mem_map.mp hto
                        simp only [getSectionsCategory, List.mem_filter] at ht
                        exact ⟨t, ht.1, by simpa using ht.2, by rw [hi, hti]⟩
                      · rintro ⟨s, hs, hcat, r, hr, hty, ⟨t, ht, htc, hts⟩, hpos⟩
                        refine ⟨s, by
                          simp only [getSectionsCategory, List.mem_filter]
                          exact ⟨hs, by simpa using hcat⟩, r, hr,
                          ⟨t.id, hts, ?_⟩, fun u hu => by cases hu; exact hty,
                          hpos⟩
                        rw [initIdsOf]
                        apply List.mem_map_of_mem Section.id
                        simp only [getSectionsCategory, List.mem_filter]
                        exact ⟨ht, by simpa using htc⟩
                    · intro x
                      rw [(List.perm_insertionSort _ _).mem_iff,
                        mem_getRelocs _ _ _ _ h2]
                      constructor
                      · rintro ⟨s, hs, r, hr, ⟨i, hi, hto⟩, hty, hpos⟩
                        simp only [getSectionsCategory, List.mem_filter] at hs
                        refine ⟨s, hs.1, by simpa using hs.2, r, hr,
                          hty _ rfl, ?_, hpos⟩
                        obtain ⟨t, ht, hti⟩ := List.mem_map.mp hto
                        rw [noninitOf, List.mem_filter] at ht
                        refine ⟨t, ht.1, ?_, by rw [hi, hti]⟩
                        have := ht.2
                        simp only [Bool.not_eq_true'] at this
                        simpa using this
                      · rintro ⟨s, hs, hcat, r, hr, hty, ⟨t, ht, htc, hts⟩, hpos⟩
                        refine ⟨s, by
                          simp only [getSectionsCategory, List.mem_filter]
                          exact ⟨hs, by simpa using hcat⟩, r, hr,
                          ⟨t.id, hts, ?_⟩, fun u hu => by cases hu; exact hty,
                          hpos⟩
                        apply List.mem_map_of_mem Section.id
                        rw [noninitOf, List.mem_filter]
                        refine ⟨ht, ?_⟩
                        simp only [Bool.not_eq_true']
                        simpa using htc
                    · intro x
                      rw [(List.perm_insertionSort _ _).mem_iff,
                        mem_getRelocs _ _ _ _ h3]
                      constructor
                      · rintro ⟨s, hs, r, hr, ⟨i, hi, hto⟩, _, hpos⟩
                        rw [noninitOf, List.mem_filter] at hs
                        refine ⟨s, hs.1, ?_, r, hr, ?_, hpos⟩
                        · have := hs.2
                          simp only [Bool.not_eq_true'] at this
                          simpa using this
                        · rw [initIdsOf] at hto
                          obtain ⟨t, ht, hti⟩ := List.mem_map.mp hto
                          simp only [getSectionsCategory, List.mem_filter] at ht
                          exact ⟨t, ht.1, by simpa using ht.2, by rw [hi, hti]⟩
                      · rintro ⟨s, hs, hcat, r, hr, ⟨t, ht, htc, hts⟩, hpos⟩
                        refine ⟨s, ?_, r, hr, ⟨t.id, hts, ?_⟩,
                          fun u hu => Option.noConfusion hu, hpos⟩
                        · rw [noninitOf, List.mem_filter]
                          refine ⟨hs, ?_⟩
                          simp only [Bool.not_eq_true']
                          simpa using hcat
                        · rw [initIdsOf]
                          apply List.mem_map_of_mem Section.id
                          simp only [getSectionsCategory, List.mem_filter]
                          exact ⟨ht, by simpa using htc⟩

def c7sym : List (String × Symbol) :=
  [("_reloc_abs_start",
    { name := "_reloc_abs_start", size := 0, offset := 0, secId := none })]

def c7init : Section :=
  { mkSec 50 ".text.init1" 8 1 "32flat" "32init" with
    relocs := [{ offset := 4, type := "R_386_32", symbolname := "i2"
                 symbol := { name := "i2", size := 0, offset := 0, secId := some 50 } }]
    finalloc := some 4096
    finalsegloc := some 4096 }

/-- A kept non-init section the layout never placed, carrying a
relocation into the init section. -/
def c7unlaid : Section :=
  { mkSec 51 ".datalow.x" 4 1 "32flat" "32flat" with
    relocs := [{ offset := 0, type := "R_386_32", symbolname := "i1"
                 symbol := { name := "i1", size := 0, offset := 0, secId := some 50 } }] }

/-- Claim C7, counterexample to unconditional emission: with the
sentinel defined, a store holding a kept-but-never-laid non-init
section with a relocation into init code makes the table pass die on
`None + offset` — no lists are emitted at all. -/
theorem relocTables_unlaid_crash_cex :
    genrelocOf c7sym = true
    ∧ c7unlaid.finalloc = none
    ∧ relocTables [c7init, c7unlaid] (genrelocOf c7sym) = .error () :=
  ⟨by rfl, by rfl, by rfl⟩

/-- Witness for `relocTables_three_sorted_lists` at a concrete input:
one laid init section with one absolute self-relocation. -/
theorem relocTables_three_sorted_lists_witness :
    (relocTables [c7init] (genrelocOf c7sym) = .ok (some ([4100], [], [])))
    ∧ ((List.Pairwise (fun (x y : Int) => x ≤ y) [4100]
          ∧ List.Pairwise (fun (x y : Int) => x ≤ y) ([] : List Int)
          ∧ List.Pairwise (fun (x y : Int) => x ≤ y) ([] : List Int))
        ∧ (∀ x, x ∈ [(4100 : Int)] ↔ ∃ s ∈ [c7init], s.category = "32init"
            ∧ ∃ r ∈ s.relocs, r.type = "R_386_32"
              ∧ (∃ t, t ∈ [c7init] ∧ t.category = "32init"
                  ∧ r.symbol.secId = some t.id)
              ∧ ∃ loc, s.finalloc = some loc ∧ x = loc + r.offset)
        ∧ (∀ x, x ∈ ([] : List Int) ↔ ∃ s ∈ [c7init], s.category = "32init"
            ∧ ∃ r ∈ s.relocs, r.type = "R_386_PC32"
              ∧ (∃ t, t ∈ [c7init] ∧ ¬ t.category = "32init"
                  ∧ r.symbol.secId = some t.id)
              ∧ ∃ loc, s.finalloc = some loc ∧ x = loc + r.offset)
        ∧ (∀ x, x ∈ ([] : List Int) ↔ ∃ s ∈ [c7init], ¬ s.category = "32init"
            ∧ ∃ r ∈ s.relocs,
              (∃ t, t ∈ [c7init] ∧ t.category = "32init"
                  ∧ r.symbol.secId = some t.id)
              ∧ ∃ loc, s.finalloc = some loc ∧ x = loc + r.offset)) :=
  ⟨by rfl,
    (relocTables_three_sorted_lists c7sym [c7init]).2.2.2.2 [4100] [] []
      (by rfl)⟩

/-- Look up a symbol by name in one unit's symbol table (`syms.get`). -/
def lookupSym (syms : List (String × Symbol)) (name : String) : Option Symbol :=
  (syms.find? (fun p => p.1 == name)).map Prod.snd

/-- The per-unit symbol tables (`symbols` in `main`), as an association
list over the fileids `"16"`, `"32seg"`, `"32flat"`. -/
def lookupTab (tabs : List (String × List (String × Symbol))) (fid : String) :
    List (String × Symbol) :=
  ((tabs.find? (fun p => p.1 == fid)).map Prod.snd).getD []

/-- `checkKeepSym(reloc, syms, fileid, isxref)`: resolve `symbolname`
(stripping a mandatory `_cfunc<fileid>_` prefix for `_cfunc` references)
in the given table, reject discarded or absent target sections and
mismatched code references, and on success resolve the relocation
(`reloc.symbol = symbol`).  Returns the decision together with the
possibly-updated relocation. -/
def checkKeepSym (env : List Section) (syms : List (String × Symbol))
    (fileid : String) (isxref : Bool) (reloc : Reloc) : Bool × Reloc :=
  let mustbecfunc := strHasPre reloc.symbolname "_cfunc"
  let symPre := "_cfunc".data ++ fileid.data ++ ['_']
  if mustbecfunc && !(symPre.isPrefixOf reloc.symbolname.data) then (false, reloc)
  else
    let symbolname : String :=
      if mustbecfunc then ⟨reloc.symbolname.data.drop symPre.length⟩
      else reloc.symbolname
    match lookupSym syms symbolname with
    | none => (false, reloc)
    | some symbol =>
        match symbol.secId with
        | none => (false, reloc)
        | some i =>
            match getSec env i with
            | none => (false, reloc)
            | some sec =>
                if strHasPre sec.name ".discard." then (false, reloc)
                else
                  let isdestcfunc := strHasPre sec.name ".text."
                    && !(strHasPre sec.name ".text.asm.")
                  if (mustbecfunc && !isdestcfunc)
                      || (!mustbecfunc && isdestcfunc && isxref) then (false, reloc)
                  else (true, { reloc with symbol := symbol })

/-- `checkKeep(reloc, section, symbols, chain)`: try the owning unit's
namespace, then the other two as cross-unit references. -/
def checkKeep (tabs : List (String × List (String × Symbol)))
    (env : List Section) (sec : Section) (reloc : Reloc) : Bool × Reloc :=
  let r1 := checkKeepSym env (lookupTab tabs sec.fileid) sec.fileid false reloc
  if r1.1 then r1
  else
    ["16", "32seg", "32flat"].foldl
      (fun acc fid =>
        if acc.1 then acc
        else if fid == sec.fileid then acc
        else checkKeepSym env (lookupTab tabs fid) fid true acc.2)
      r1

/-- Replace relocation `j` of the section with id `sid` in the store
(the in-place `reloc.symbol = symbol` mutation). -/
def setReloc (env : List Section) (sid : Nat) (j : Nat) (r : Reloc) :
    List Section :=
  env.map (fun s => if s.id == sid then { s with relocs := s.relocs.set j r } else s)

/-- One visited section's reloc loop of `findReachable`: run the edge
predicate on each relocation of the snapshot in order, write back the
resolved relocation on acceptance, and enqueue the (present) target when
unseen.  An accepted edge whose symbol has no section would make the
source crash when the `None` key is popped; both predicates rule that
out and it is modelled as an error. -/
def procRelocs (P : List Section → Section → Reloc → Except Unit (Bool × Reloc))
    (sec : Section) (chain : List String) :
    List (Nat × Reloc) → List Section → List (Nat × List String) → List Nat →
    Except Unit (List Section × List (Nat × List String) × List Nat)
  | [], env, visited, pending => .ok (env, visited, pending)
  | (j, r) :: rest, env, visited, pending =>
      match P env sec r with
      | .error e => .error e
      | .ok (accepted, r1) =>
          if accepted then
            let env1 := setReloc env sec.id j r1
            match r1.symbol.secId with
            | none => .error ()
            | some nid =>
                if (visited.find? (fun p => p.1 == nid)).isSome then
                  procRelocs P sec chain rest env1 visited pending
                else
                  procRelocs P sec chain rest env1
                    (visited ++ [(nid, chain)]) (pending ++ [nid])
          else
            procRelocs P sec chain rest env visited pending

/-- The work-list loop of `findReachable` (`while pending: section =
pending.pop()`), with fuel standing in for the implicit termination
argument (each section is enqueued at most once).  `none` is fuel
exhaustion, never reached with enough fuel. -/
def frLoop (P : List Section → Section → Reloc → Except Unit (Bool × Reloc)) :
    Nat → List Section → List (Nat × List String) → List Nat →
    Option (Except Unit (List Section × List (Nat × List String)))
  | fuel, env, visited, pending =>
      match pending.getLast? with
      | none => some (.ok (env, visited))
      | some sid =>
          match fuel with
          | 0 => none
          | fuel + 1 =>
              let sec := (getSec env sid).getD (mkSec sid "" 0 0 "" "")
              let chain :=
                (((visited.find? (fun p => p.1 == sid)).map Prod.snd).getD [])
                  ++ [sec.name]
              match procRelocs P sec chain sec.relocs.enum env visited
                  pending.dropLast with
              | .error e => some (.error e)
              | .ok (env1, visited1, pending1) => frLoop P fuel env1 visited1 pending1

/-- `findReachable(anchorsections, checkreloc, data)`: the visited map
is the insertion-ordered dict from section id to the relocation chain
that reached it. -/
def findReachable (P : List Section → Section → Reloc → Except Unit (Bool × Reloc))
    (env : List Section) (anchors : List Nat) (fuel : Nat) :
    Option (Except Unit (List Section × List (Nat × List String))) :=
  let visited0 := anchors.foldl
    (fun acc i =>
      if (acc.find? (fun p => p.1 == i)).isSome then acc else acc ++ [(i, [])])
    []
  frLoop P fuel env visited0 (visited0.map Prod.fst)

/-- The kept-section traversal's edge predicate (`checkKeep`, total). -/
def keepPred (tabs : List (String × List (String × Symbol))) :
    List Section → Section → Reloc → Except Unit (Bool × Reloc) :=
  fun env sec r => .ok (checkKeep tabs env sec r)

/-- The runtime traversal's edge predicate (`checkRuntime`; never
resolves, may abort). -/
def runtimePred : List Section → Section → Reloc → Except Unit (Bool × Reloc) :=
  fun env _ r => (checkRuntime env r).map (fun b => (b, r))

/-- Dummy symbol used to erase the mutable `symbol` field. -/
def dummySym : Symbol := { name := "", size := 0, offset := 0, secId := none }

/-- A relocation with its only mutable field (the resolved symbol)
erased. -/
def scrubReloc (r : Reloc) : Reloc := { r with symbol := dummySym }

/-- A section with the mutable parts of its relocations erased. -/
def scrubSec (s : Section) : Section := { s with relocs := s.relocs.map scrubReloc }

/-- Two stores are equal up to symbol resolution. -/
def EnvEq (a b : List Section) : Prop := a.map scrubSec = b.map scrubSec

theorem EnvEq.refl (a : List Section) : EnvEq a a := rfl

theorem EnvEq.symm {a b : List Section} (h : EnvEq a b) : EnvEq b a := Eq.symm h

theorem EnvEq.trans {a b c : List Section} (h1 : EnvEq a b) (h2 : EnvEq b c) :
    EnvEq a c := Eq.trans h1 h2

theorem scrubSec_id (s : Section) : (scrubSec s).id = s.id := rfl

theorem scrubReloc_symbolname (r : Reloc) :
    (scrubReloc r).symbolname = r.symbolname := rfl

theorem getSec_scrub : ∀ (a b : List Section), EnvEq a b → ∀ i,
    (getSec a i).map scrubSec = (getSec b i).map scrubSec := by
  intro a
  induction a with
  | nil =>
      intro b hb i
      cases b with
      | nil => rfl
      | cons y ys => simp [EnvEq] at hb
  | cons x xs ih =>
      intro b hb i
      cases b with
      | nil => simp [EnvEq] at hb
      | cons y ys =>
          simp only [EnvEq, List.map_cons, List.cons.injEq] at hb
          obtain ⟨hxy, hrest⟩ := hb
          have hid : x.id = y.id := by
            rw [← scrubSec_id x, ← scrubSec_id y, hxy]
          unfold getSec at *
          by_cases hmatch : (x.id == i) = true
          · have h1 : List.find? (fun s => s.id == i) (x :: xs) = some x :=
              List.find?_cons_of_pos _ hmatch
            have h2 : List.find? (fun s => s.id == i) (y :: ys) = some y :=
              List.find?_cons_of_pos _ (by rw [← hid]; exact hmatch)
            rw [h1, h2]
            show some (scrubSec x) = some (scrubSec y)
            exact congrArg some hxy
          · have h1 : List.find? (fun s => s.id == i) (x :: xs)
                = List.find? (fun s => s.id == i) xs :=
              List.find?_cons_of_neg _ hmatch
            have h2 : List.find? (fun s => s.id == i) (y :: ys)
                = List.find? (fun s => s.id == i) ys :=
              List.find?_cons_of_neg _ (by rw [← hid]; exact hmatch)
            rw [h1, h2]
            exact ih ys hrest i

theorem setReloc_scrub_congr {a b : List Section} (h : EnvEq a b)
    {r r' : Reloc} (hr : scrubReloc r = scrubReloc r') (sid j) :
    EnvEq (setReloc a sid j r) (setReloc b sid j r') := by
  unfold EnvEq setReloc at *
  rw [List.map_map, List.map_map]
  revert b
  induction a with
  | nil =>
      intro b hb
      cases b with
      | nil => rfl
      | cons y ys => simp at hb
  | cons x xs ih =>
      intro b hb
      cases b with
      | nil => simp at hb
      | cons y ys =>
          simp only [List.map_cons, List.cons.injEq] at hb ⊢
          obtain ⟨hxy, hrest⟩ := hb
          refine ⟨?_, ?_⟩
          · have hid : x.id = y.id := by
              rw [← scrubSec_id x, ← scrubSec_id y, hxy]
            simp only [Function.comp_apply]
            by_cases hmatch : x.id == sid
            · rw [if_pos hmatch, if_pos (by rw [← hid]; exact hmatch)]
              show scrubSec _ = scrubSec _
              unfold scrubSec
              simp only [List.map_set]
              have hrel : x.relocs.map scrubReloc = y.relocs.map scrubReloc := by
                have := congrArg Section.relocs hxy
                simpa [scrubSec] using this
              have hname : x.name = y.name := by
                have := congrArg Section.name hxy
                simpa [scrubSec] using this
              have hsize : x.size = y.size := by
                have := congrArg Section.size hxy
                simpa [scrubSec] using this
              have halign : x.align = y.align := by
                have := congrArg Section.align hxy
                simpa [scrubSec] using this
              have hfid : x.fileid = y.fileid := by
                have := congrArg Section.fileid hxy
                simpa [scrubSec] using this
              have hcat : x.category = y.category := by
                have := congrArg Section.category hxy
                simpa [scrubSec] using this
              have hfl : x.finalloc = y.finalloc := by
                have := congrArg Section.finalloc hxy
                simpa [scrubSec] using this
              have hfsl : x.finalsegloc = y.finalsegloc := by
                have := congrArg Section.finalsegloc hxy
                simpa [scrubSec] using this
              simp [Section.mk.injEq, hid, hname, hsize, halign, hfid, hcat,
                hfl, hfsl, hrel, hr]
            · rw [if_neg hmatch, if_neg (by rw [← hid]; exact hmatch)]
              exact hxy
          · exact ih hrest

theorem list_set_self {α : Type} : ∀ (l : List α) (j : Nat) (a : α),
    l.get? j = some a → l.set j a = l := by
  intro l
  induction l with
  | nil => intro j a h; cases h
  | cons x xs ih =>
      intro j a h
      cases j with
      | zero =>
          simp only [List.get?_cons_zero, Option.some_inj] at h
          rw [h]
          rfl
      | succ n =>
          simp only [List.get?_cons_succ] at h
          simp only [List.set_cons_succ, ih n a h]

theorem setReloc_self {env : List Section} {sid : Nat} {j : Nat} {r : Reloc}
    (h : ∀ s ∈ env, s.id = sid → s.relocs.get? j = some r) :
    setReloc env sid j r = env := by
  unfold setReloc
  induction env with
  | nil => rfl
  | cons x xs ih =>
      simp only [List.map_cons]
      refine congrArg₂ List.cons ?_ ?_
      · by_cases hmatch : x.id == sid
        · rw [if_pos hmatch]
          have hx := h x (List.mem_cons_self _ _) (by simpa using hmatch)
          rw [list_set_self x.relocs j r hx]
        · rw [if_neg hmatch]
      · exact ih (fun s hs => h s (List.mem_cons_of_mem x hs))

/-- Relation between predicate results across symbol-resolution states:
equal decision, equal output on acceptance, and scrub-equal output. -/
def RelP (a b : Bool × Reloc) : Prop :=
  a.1 = b.1 ∧ (a.1 = true → a.2 = b.2) ∧ scrubReloc a.2 = scrubReloc b.2

theorem scrubSec_name_eq {s s' : Section} (h : scrubSec s = scrubSec s') :
    s.name = s'.name := by
  have := congrArg Section.name h
  simpa [scrubSec] using this

theorem scrubSec_fileid_eq {s s' : Section} (h : scrubSec s = scrubSec s') :
    s.fileid = s'.fileid := by
  have := congrArg Section.fileid h
  simpa [scrubSec] using this

theorem scrubReloc_eq_fields {r r' : Reloc} (h : scrubReloc r = scrubReloc r') :
    r.offset = r'.offset ∧ r.type = r'.type ∧ r.symbolname = r'.symbolname := by
  refine ⟨?_, ?_, ?_⟩
  · have := congrArg Reloc.offset h
    simpa [scrubReloc] using this
  · have := congrArg Reloc.type h
    simpa [scrubReloc] using this
  · have := congrArg Reloc.symbolname h
    simpa [scrubReloc] using this

theorem checkKeepSym_congr {env env' : List Section} (he : EnvEq env env')
    (syms : List (String × Symbol)) (fid : String) (x : Bool)
    {r r' : Reloc} (hr : scrubReloc r = scrubReloc r') :
    RelP (checkKeepSym env syms fid x r) (checkKeepSym env' syms fid x r') := by
  obtain ⟨hoff, hty, hsn⟩ := scrubReloc_eq_fields hr
  unfold checkKeepSym
  dsimp only
  rw [← hsn]
  by_cases hcf : (strHasPre r.symbolname "_cfunc"
      && !(("_cfunc".data ++ fid.data ++ ['_']).isPrefixOf r.symbolname.data)) = true
  · rw [if_pos hcf, if_pos hcf]
    exact ⟨rfl, fun h => Bool.noConfusion h, hr⟩
  · rw [if_neg hcf, if_neg hcf]
    cases hls : lookupSym syms
        (if strHasPre r.symbolname "_cfunc" = true
          then (⟨r.symbolname.data.drop ("_cfunc".data ++ fid.data ++ ['_']).length⟩ : String)
          else r.symbolname) with
    | none => exact ⟨rfl, fun h => Bool.noConfusion h, hr⟩
    | some symbol =>
        dsimp only
        cases hsec : symbol.secId with
        | none => exact ⟨rfl, fun h => Bool.noConfusion h, hr⟩
        | some i =>
            dsimp only
            have hopt := getSec_scrub env env' he i
            cases hg : getSec env i with
            | none =>
                cases hg' : getSec env' i with
                | none => exact ⟨rfl, fun h => Bool.noConfusion h, hr⟩
                | some s' =>
                    exfalso
                    rw [hg, hg'] at hopt
                    cases hopt
            | some s =>
                cases hg' : getSec env' i with
                | none =>
                    exfalso
                    rw [hg, hg'] at hopt
                    cases hopt
                | some s' =>
                    rw [hg, hg'] at hopt
                    dsimp only
                    have hopt2 : some (scrubSec s) = some (scrubSec s') := hopt
                    have hname := scrubSec_name_eq (Option.some.inj hopt2)
                    rw [← hname]
                    by_cases hd : strHasPre s.name ".discard." = true
                    · rw [if_pos hd, if_pos hd]
                      exact ⟨rfl, fun h => Bool.noConfusion h, hr⟩
                    · rw [if_neg hd, if_neg hd]
                      by_cases hmm : ((strHasPre r.symbolname "_cfunc"
                            && !(strHasPre s.name ".text."
                                && !(strHasPre s.name ".text.asm.")))
                          || (!(strHasPre r.symbolname "_cfunc")
                            && (strHasPre s.name ".text."
                                && !(strHasPre s.name ".text.asm.")) && x)) = true
                      · rw [if_pos hmm, if_pos hmm]
                        exact ⟨rfl, fun h => Bool.noConfusion h, hr⟩
                      · rw [if_neg hmm, if_neg hmm]
                        have hout : Reloc.mk r.offset r.type r.symbolname symbol
                            = Reloc.mk r'.offset r'.type r.symbolname symbol := by
                          rw [hoff, hty]
                        exact ⟨rfl, fun _ => hout, by rw [hout]⟩

theorem checkKeep_congr (tabs : List (String × List (String × Symbol)))
    {env env' : List Section} (he : EnvEq env env') {sec sec' : Section}
    (hs : scrubSec sec = scrubSec sec') {r r' : Reloc}
    (hr : scrubReloc r = scrubReloc r') :
    RelP (checkKeep tabs env sec r) (checkKeep tabs env' sec' r') := by
  have hfid := scrubSec_fileid_eq hs
  unfold checkKeep
  rw [← hfid]
  have h1 := checkKeepSym_congr he (lookupTab tabs sec.fileid) sec.fileid false hr
  have step : ∀ (fid : String) (acc acc' : Bool × Reloc), RelP acc acc' →
      RelP (if acc.1 then acc
            else if fid == sec.fileid then acc
            else checkKeepSym env (lookupTab tabs fid) fid true acc.2)
           (if acc'.1 then acc'
            else if fid == sec.fileid then acc'
            else checkKeepSym env' (lookupTab tabs fid) fid true acc'.2) := by
    intro fid acc acc' hacc
    obtain ⟨hd, hok, hscrub⟩ := hacc
    by_cases h : acc.1 = true
    · have h' : acc'.1 = true := by rw [← hd]; exact h
      rw [if_pos h, if_pos h']
      exact ⟨hd, hok, hscrub⟩
    · have h' : ¬ acc'.1 = true := by rw [← hd]; exact h
      rw [if_neg h, if_neg h']
      by_cases h2 : (fid == sec.fileid) = true
      · rw [if_pos h2, if_pos h2]
        exact ⟨hd, hok, hscrub⟩
      · rw [if_neg h2, if_neg h2]
        exact checkKeepSym_congr he (lookupTab tabs fid) fid true hscrub
  simp only [List.foldl]
  by_cases hb : (checkKeepSym env (lookupTab tabs sec.fileid) sec.fileid false r).1 = true
  · have hb' : (checkKeepSym env' (lookupTab tabs sec.fileid) sec.fileid false r').1
        = true := by rw [← h1.1]; exact hb
    rw [if_pos hb, if_pos hb']
    exact h1
  · have hb' : ¬ (checkKeepSym env' (lookupTab tabs sec.fileid) sec.fileid false r').1
        = true := by rw [← h1.1]; exact hb
    rw [if_neg hb, if_neg hb']
    exact step "32flat" _ _ (step "32seg" _ _ (step "16" _ _ h1))

/-- An edge predicate whose behaviour is invariant under symbol
resolution. -/
def PCongr (P : List Section → Section → Reloc → Except Unit (Bool × Reloc)) : Prop :=
  ∀ (env env' : List Section) (sec sec' : Section) (r r' : Reloc),
    EnvEq env env' → scrubSec sec = scrubSec sec' →
    scrubReloc r = scrubReloc r' →
    match P env sec r, P env' sec' r' with
    | .error _, .error _ => True
    | .ok a, .ok b => RelP a b
    | _, _ => False

theorem keepPred_congr (tabs : List (String × List (String × Symbol))) :
    PCongr (keepPred tabs) := by
  intro env env' sec sec' r r' he hs hr
  exact checkKeep_congr tabs he hs hr

theorem scrubSec_relocs_eq {s s' : Section} (h : scrubSec s = scrubSec s') :
    s.relocs.map scrubReloc = s'.relocs.map scrubReloc := by
  have := congrArg Section.relocs h
  simpa [scrubSec] using this

theorem enumFrom_scrub_eq : ∀ (xs ys : List Reloc),
    xs.map scrubReloc = ys.map scrubReloc →
    ∀ n, (xs.enumFrom n).map (fun p => (p.1, scrubReloc p.2))
      = (ys.enumFrom n).map (fun p => (p.1, scrubReloc p.2)) := by
  intro xs
  induction xs with
  | nil =>
      intro ys h n
      cases ys with
      | nil => rfl
      | cons y ys => simp at h
  | cons x xs ih =>
      intro ys h n
      cases ys with
      | nil => simp at h
      | cons y ys =>
          simp only [List.map_cons, List.cons.injEq] at h
          obtain ⟨hxy, hrest⟩ := h
          simp only [List.enumFrom, List.map_cons, hxy]
          rw [ih ys hrest (n + 1)]

theorem procRelocs_congr {P : List Section → Section → Reloc → Except Unit (Bool × Reloc)}
    (hP : PCongr P) {sec sec' : Section} (hs : scrubSec sec = scrubSec sec')
    (chain : List String) :
    ∀ (snap snap' : List (Nat × Reloc)),
      snap.map (fun p => (p.1, scrubReloc p.2))
        = snap'.map (fun p => (p.1, scrubReloc p.2)) →
      ∀ (env env' : List Section), EnvEq env env' →
      ∀ (visited : List (Nat × List String)) (pending : List Nat),
      match procRelocs P sec chain snap env visited pending,
            procRelocs P sec' chain snap' env' visited pending with
      | .error _, .error _ => True
      | .ok (e1, v1, p1), .ok (e2, v2, p2) => EnvEq e1 e2 ∧ v1 = v2 ∧ p1 = p2
      | _, _ => False := by
  intro snap
  induction snap with
  | nil =>
      intro snap' hsnap env env' he visited pending
      cases snap' with
      | nil => exact ⟨he, rfl, rfl⟩
      | cons q qs => simp at hsnap
  | cons p ps ih =>
      intro snap' hsnap env env' he visited pending
      cases snap' with
      | nil => simp at hsnap
      | cons q qs =>
          obtain ⟨j, r⟩ := p
          obtain ⟨j', r'⟩ := q
          simp only [List.map_cons, List.cons.injEq, Prod.mk.injEq] at hsnap
          obtain ⟨⟨hj, hrr⟩, hrest⟩ := hsnap
          subst hj
          have hPres := hP env env' sec sec' r r' he hs hrr
          simp only [procRelocs]
          cases hp1 : P env sec r with
          | error e =>
              cases hp2 : P env' sec' r' with
              | error e' => trivial
              | ok b => rw [hp1, hp2] at hPres; exact absurd hPres (by simp)
          | ok a =>
              cases hp2 : P env' sec' r' with
              | error e' => rw [hp1, hp2] at hPres; exact absurd hPres (by simp)
              | ok b =>
                  rw [hp1, hp2] at hPres
                  obtain ⟨a1, a2⟩ := a
                  obtain ⟨b1, b2⟩ := b
                  obtain ⟨hdec, hacc, hscr⟩ := hPres
                  simp only at hdec hacc hscr
                  cases ha1 : a1 with
                  | false =>
                      have hb1 : b1 = false := by rw [← hdec, ha1]
                      subst hb1
                      rw [ha1] at hdec
                      simp only [Bool.false_eq_true, if_false]
                      exact ih qs hrest env env' he visited pending
                  | true =>
                      have hb1 : b1 = true := by rw [← hdec, ha1]
                      subst hb1
                      rw [ha1] at hacc
                      have heq : a2 = b2 := hacc rfl
                      subst heq
                      simp only [if_true]
                      have hid : sec.id = sec'.id := by
                        have := congrArg Section.id hs
                        simpa [scrubSec] using this
                      have he2 : EnvEq (setReloc env sec.id j a2)
                          (setReloc env' sec'.id j a2) := by
                        rw [← hid]
                        exact setReloc_scrub_congr he rfl sec.id j
                      cases hsi : a2.symbol.secId with
                      | none => dsimp only
                      | some nid =>
                          dsimp only
                          by_cases hv : ((visited.find? (fun p => p.1 == nid)).isSome) = true
                          · rw [if_pos hv, if_pos hv]
                            exact ih qs hrest _ _ he2 visited pending
                          · rw [if_neg hv, if_neg hv]
                            exact ih qs hrest _ _ he2 _ _

theorem frLoop_congr {P : List Section → Section → Reloc → Except Unit (Bool × Reloc)}
    (hP : PCongr P) :
    ∀ (fuel : Nat) (env env' : List Section), EnvEq env env' →
    ∀ (visited : List (Nat × List String)) (pending : List Nat),
      match frLoop P fuel env visited pending, frLoop P fuel env' visited pending with
      | none, none => True
      | some (.error _), some (.error _) => True
      | some (.ok (e1, v1)), some (.ok (e2, v2)) => EnvEq e1 e2 ∧ v1 = v2
      | _, _ => False := by
  intro fuel
  induction fuel with
  | zero =>
      intro env env' he visited pending
      simp only [frLoop]
      cases pending.getLast? with
      | none => exact ⟨he, rfl⟩
      | some sid => trivial
  | succ n ih =>
      intro env env' he visited pending
      rw [frLoop]
      rw [frLoop]
      cases pending.getLast? with
      | none => exact ⟨he, rfl⟩
      | some sid =>
          dsimp only
          have hopt := getSec_scrub env env' he sid
          have hsecs : scrubSec ((getSec env sid).getD (mkSec sid "" 0 0 "" ""))
              = scrubSec ((getSec env' sid).getD (mkSec sid "" 0 0 "" "")) := by
            cases hg : getSec env sid with
            | none =>
                cases hg' : getSec env' sid with
                | none => rfl
                | some s' => exfalso; rw [hg, hg'] at hopt; cases hopt
            | some s =>
                cases hg' : getSec env' sid with
                | none => exfalso; rw [hg, hg'] at hopt; cases hopt
                | some s' =>
                    rw [hg, hg'] at hopt
                    have h2 : some (scrubSec s) = some (scrubSec s') := hopt
                    simpa using Option.some.inj h2
          have hname := scrubSec_name_eq hsecs
          have hrel := scrubSec_relocs_eq hsecs
          have hsnap : ((getSec env sid).getD (mkSec sid "" 0 0 "" "")).relocs.enum.map
                (fun p => (p.1, scrubReloc p.2))
              = ((getSec env' sid).getD (mkSec sid "" 0 0 "" "")).relocs.enum.map
                (fun p => (p.1, scrubReloc p.2)) :=
            enumFrom_scrub_eq _ _ hrel 0
          rw [hname]
          have hproc := procRelocs_congr hP hsecs
            ((((visited.find? (fun p => p.1 == sid)).map Prod.snd).getD [])
              ++ [((getSec env' sid).getD (mkSec sid "" 0 0 "" "")).name])
            ((getSec env sid).getD (mkSec sid "" 0 0 "" "")).relocs.enum
            ((getSec env' sid).getD (mkSec sid "" 0 0 "" "")).relocs.enum
            hsnap env env' he visited pending.dropLast
          cases hc1 : procRelocs P ((getSec env sid).getD (mkSec sid "" 0 0 "" ""))
              ((((visited.find? (fun p => p.1 == sid)).map Prod.snd).getD [])
                ++ [((getSec env' sid).getD (mkSec sid "" 0 0 "" "")).name])
              ((getSec env sid).getD (mkSec sid "" 0 0 "" "")).relocs.enum
              env visited pending.dropLast with
          | error e =>
              rw [hc1] at hproc
              cases hc2 : procRelocs P ((getSec env' sid).getD (mkSec sid "" 0 0 "" ""))
                  ((((visited.find? (fun p => p.1 == sid)).map Prod.snd).getD [])
                    ++ [((getSec env' sid).getD (mkSec sid "" 0 0 "" "")).name])
                  ((getSec env' sid).getD (mkSec sid "" 0 0 "" "")).relocs.enum
                  env' visited pending.dropLast with
              | error e' => dsimp only
              | ok w => rw [hc2] at hproc; exact absurd hproc (by simp)
          | ok w =>
              rw [hc1] at hproc
              cases hc2 : procRelocs P ((getSec env' sid).getD (mkSec sid "" 0 0 "" ""))
                  ((((visited.find? (fun p => p.1 == sid)).map Prod.snd).getD [])
                    ++ [((getSec env' sid).getD (mkSec sid "" 0 0 "" "")).name])
                  ((getSec env' sid).getD (mkSec sid "" 0 0 "" "")).relocs.enum
                  env' visited pending.dropLast with
              | error e' => rw [hc2] at hproc; exact absurd hproc (by simp)
              | ok w' =>
                  rw [hc2] at hproc
                  obtain ⟨e1, v1, p1⟩ := w
                  obtain ⟨e2, v2, p2⟩ := w'
                  obtain ⟨hee, hvv, hpp⟩ := hproc
                  subst hvv
                  subst hpp
                  dsimp only
                  exact ih e1 e2 hee v1 p1

/-- An edge predicate whose accepted output differs from its input
relocation at most in the resolved symbol. -/
def PScrub (P : List Section → Section → Reloc → Except Unit (Bool × Reloc)) : Prop :=
  ∀ (env : List Section) (sec : Section) (r : Reloc) (b : Bool) (r1 : Reloc),
    P env sec r = .ok (b, r1) → scrubReloc r1 = scrubReloc r

theorem checkKeepSym_scrub (env : List Section) (syms : List (String × Symbol))
    (fid : String) (x : Bool) (r : Reloc) :
    scrubReloc (checkKeepSym env syms fid x r).2 = scrubReloc r := by
  unfold checkKeepSym
  dsimp only
  split
  · rfl
  · split
    · rfl
    · split
      · rfl
      · split
        · rfl
        · split
          · rfl
          · split
            · rfl
            · rfl

theorem checkKeep_scrub (tabs : List (String × List (String × Symbol)))
    (env : List Section) (sec : Section) (r : Reloc) :
    scrubReloc (checkKeep tabs env sec r).2 = scrubReloc r := by
  have step : ∀ (fid : String) (acc : Bool × Reloc),
      scrubReloc (if acc.1 then acc
        else if fid == sec.fileid then acc
        else checkKeepSym env (lookupTab tabs fid) fid true acc.2).2
      = scrubReloc acc.2 := by
    intro fid acc
    by_cases h : acc.1 = true
    · rw [if_pos h]
    · rw [if_neg h]
      by_cases h2 : (fid == sec.fileid) = true
      · rw [if_pos h2]
      · rw [if_neg h2]
        exact checkKeepSym_scrub env (lookupTab tabs fid) fid true acc.2
  unfold checkKeep
  dsimp only
  by_cases hb :
      (checkKeepSym env (lookupTab tabs sec.fileid) sec.fileid false r).1 = true
  · rw [if_pos hb]
    exact checkKeepSym_scrub env _ sec.fileid false r
  · rw [if_neg hb]
    simp only [List.foldl]
    exact ((step "32flat" _).trans ((step "32seg" _).trans
      ((step "16" _).trans (checkKeepSym_scrub env _ sec.fileid false r))))

theorem keepPred_scrub (tabs : List (String × List (String × Symbol))) :
    PScrub (keepPred tabs) := by
  intro env sec r b r1 h
  simp only [keepPred] at h
  have h2 : checkKeep tabs env sec r = (b, r1) := Except.ok.inj h
  have h3 : (checkKeep tabs env sec r).2 = r1 := by rw [h2]
  rw [← h3]
  exact checkKeep_scrub tabs env sec r

theorem setReloc_scrub_self : ∀ (env : List Section) (sid j : Nat) (r : Reloc),
    (∀ s ∈ env, s.id = sid → ∃ rj, s.relocs.get? j = some rj ∧
      scrubReloc rj = scrubReloc r) →
    EnvEq (setReloc env sid j r) env := by
  intro env sid j r
  induction env with
  | nil => intro h; rfl
  | cons x xs ih =>
      intro h
      have htail := ih (fun s hs => h s (List.mem_cons_of_mem x hs))
      unfold EnvEq setReloc at htail ⊢
      simp only [List.map_cons]
      refine congrArg₂ List.cons ?_ htail
      by_cases hmatch : (x.id == sid) = true
      · rw [if_pos hmatch]
        obtain ⟨rj, hget, hscr⟩ :=
          h x (List.mem_cons_self x xs) (by simpa using hmatch)
        have hget2 : (x.relocs.map scrubReloc).get? j = some (scrubReloc r) := by
          rw [List.get?_map, hget]
          simp [hscr]
        have hlist : (x.relocs.set j r).map scrubReloc
            = x.relocs.map scrubReloc := by
          rw [List.map_set]
          exact list_set_self _ j _ hget2
        show { x with relocs := (x.relocs.set j r).map scrubReloc }
          = { x with relocs := x.relocs.map scrubReloc }
        rw [hlist]
      · rw [if_neg hmatch]

theorem mem_enumFrom_get? : ∀ (xs : List Reloc) (n : Nat) (p : Nat × Reloc),
    p ∈ xs.enumFrom n → n ≤ p.1 ∧ xs.get? (p.1 - n) = some p.2 := by
  intro xs
  induction xs with
  | nil => intro n p h; cases h
  | cons x t ih =>
      intro n p h
      simp only [List.enumFrom, List.mem_cons] at h
      cases h with
      | inl h =>
          subst h
          exact ⟨Nat.le_refl n, by simp⟩
      | inr h =>
          obtain ⟨hle, hget⟩ := ih (n + 1) p h
          refine ⟨Nat.le_trans (Nat.le_succ n) hle, ?_⟩
          have hstep : p.1 - n = (p.1 - (n + 1)) + 1 := by omega
          rw [hstep, List.get?_cons_succ]
          exact hget

theorem mem_enum_get? (xs : List Reloc) (p : Nat × Reloc) (h : p ∈ xs.enum) :
    xs.get? p.1 = some p.2 := by
  have h2 := mem_enumFrom_get? xs 0 p h
  simpa using h2.2

theorem envEq_ids {a b : List Section} (h : EnvEq a b) :
    a.map Section.id = b.map Section.id := by
  have h2 := congrArg (List.map Section.id) h
  rw [List.map_map, List.map_map] at h2
  simpa [Function.comp, scrubSec] using h2

theorem procRelocs_scrub
    {P : List Section → Section → Reloc → Except Unit (Bool × Reloc)}
    (hP : PScrub P) (sec : Section) (chain : List String) :
    ∀ (snap : List (Nat × Reloc)) (env : List Section)
      (visited : List (Nat × List String)) (pending : List Nat),
      (∀ p ∈ snap, ∀ s ∈ env, s.id = sec.id → ∃ rj,
        s.relocs.get? p.1 = some rj ∧ scrubReloc rj = scrubReloc p.2) →
      ∀ e1 v1 p1, procRelocs P sec chain snap env visited pending
        = .ok (e1, v1, p1) →
      EnvEq e1 env := by
  intro snap
  induction snap with
  | nil =>
      intro env visited pending hsnap e1 v1 p1 h
      simp only [procRelocs] at h
      have h2 := Except.ok.inj h
      have h3 : env = e1 := congrArg Prod.fst h2
      rw [← h3]
      exact EnvEq.refl env
  | cons p ps ih =>
      intro env visited pending hsnap e1 v1 p1 h
      obtain ⟨j, r⟩ := p
      simp only [procRelocs] at h
      cases hp : P env sec r with
      | error e =>
          rw [hp] at h
          exact Except.noConfusion h
      | ok a =>
          rw [hp] at h
          obtain ⟨b, r1⟩ := a
          have hscr1 : scrubReloc r1 = scrubReloc r := hP env sec r b r1 hp
          dsimp only at h
          by_cases hb : b = true
          · rw [if_pos hb] at h
            have hse : EnvEq (setReloc env sec.id j r1) env := by
              refine setReloc_scrub_self env sec.id j r1 (fun s hs hid => ?_)
              obtain ⟨rj, hget, hsc⟩ :=
                hsnap (j, r) (List.mem_cons_self _ _) s hs hid
              exact ⟨rj, hget, hsc.trans hscr1.symm⟩
            have hsnap1 : ∀ q ∈ ps, ∀ s ∈ setReloc env sec.id j r1,
                s.id = sec.id → ∃ rj, s.relocs.get? q.1 = some rj ∧
                  scrubReloc rj = scrubReloc q.2 := by
              intro q hq s hs hid
              simp only [setReloc, List.mem_map] at hs
              obtain ⟨s₀, hs₀, rfl⟩ := hs
              by_cases hm : (s₀.id == sec.id) = true
              · rw [if_pos hm]
                rw [if_pos hm] at hid
                have hids : s₀.id = sec.id := by simpa using hm
                by_cases hj : q.1 = j
                · obtain ⟨rj, hget, hsc⟩ :=
                    hsnap q (List.mem_cons_of_mem _ hq) s₀ hs₀ hids
                  obtain ⟨rh, hgh, hsch⟩ :=
                    hsnap (j, r) (List.mem_cons_self _ _) s₀ hs₀ hids
                  have hrjrh : rj = rh := by
                    rw [hj] at hget
                    rw [hget] at hgh
                    exact Option.some.inj hgh
                  have hlen : j < s₀.relocs.length := by
                    rw [hj] at hget
                    cases hlt : decide (j < s₀.relocs.length) with
                    | true => simpa using hlt
                    | false =>
                        exfalso
                        have hge : s₀.relocs.length ≤ j := by
                          have := of_decide_eq_false hlt
                          omega
                        rw [List.get?_eq_none.mpr hge] at hget
                        exact Option.noConfusion hget
                  refine ⟨r1, ?_, ?_⟩
                  · show (s₀.relocs.set j r1).get? q.1 = some r1
                    rw [hj]
                    exact List.get?_set_eq_of_lt r1 hlen
                  · rw [hscr1, ← hsch]
                    rw [hrjrh] at hsc
                    rw [← hsc]
                · obtain ⟨rj, hget, hsc⟩ :=
                    hsnap q (List.mem_cons_of_mem _ hq) s₀ hs₀ hids
                  refine ⟨rj, ?_, hsc⟩
                  show (s₀.relocs.set j r1).get? q.1 = some rj
                  rw [List.get?_set_ne r1 _ (fun hh => hj hh.symm)]
                  exact hget
              · rw [if_neg hm]
                rw [if_neg hm] at hid
                exact hsnap q (List.mem_cons_of_mem _ hq) s₀ hs₀ hid
            cases hsi : r1.symbol.secId with
            | none =>
                rw [hsi] at h
                exact Except.noConfusion h
            | some nid =>
                rw [hsi] at h
                dsimp only at h
                by_cases hv : ((visited.find? (fun q => q.1 == nid)).isSome) = true
                · rw [if_pos hv] at h
                  exact EnvEq.trans (ih _ _ _ hsnap1 e1 v1 p1 h) hse
                · rw [if_neg hv] at h
                  exact EnvEq.trans (ih _ _ _ hsnap1 e1 v1 p1 h) hse
          · rw [if_neg hb] at h
            exact ih _ _ _
              (fun q hq s hs hid => hsnap q (List.mem_cons_of_mem _ hq) s hs hid)
              e1 v1 p1 h

theorem frLoop_scrub
    {P : List Section → Section → Reloc → Except Unit (Bool × Reloc)}
    (hP : PScrub P) :
    ∀ (fuel : Nat) (env : List Section) (visited : List (Nat × List String))
      (pending : List Nat), (env.map Section.id).Nodup →
      ∀ e1 v1, frLoop P fuel env visited pending = some (.ok (e1, v1)) →
      EnvEq e1 env := by
  intro fuel
  induction fuel with
  | zero =>
      intro env visited pending hnd e1 v1 h
      rw [frLoop] at h
      cases hg : pending.getLast? with
      | none =>
          rw [hg] at h
          dsimp only at h
          have h2 := Except.ok.inj (Option.some.inj h)
          have h3 : env = e1 := congrArg Prod.fst h2
          rw [← h3]
          exact EnvEq.refl env
      | some sid =>
          rw [hg] at h
          exact Option.noConfusion h
  | succ n ih =>
      intro env visited pending hnd e1 v1 h
      rw [frLoop] at h
      cases hg : pending.getLast? with
      | none =>
          rw [hg] at h
          dsimp only at h
          have h2 := Except.ok.inj (Option.some.inj h)
          have h3 : env = e1 := congrArg Prod.fst h2
          rw [← h3]
          exact EnvEq.refl env
      | some sid =>
          rw [hg] at h
          dsimp only at h
          cases hc : procRelocs P ((getSec env sid).getD (mkSec sid "" 0 0 "" ""))
              ((((visited.find? (fun p => p.1 == sid)).map Prod.snd).getD [])
                ++ [((getSec env sid).getD (mkSec sid "" 0 0 "" "")).name])
              ((getSec env sid).getD (mkSec sid "" 0 0 "" "")).relocs.enum
              env visited pending.dropLast with
          | error e =>
              rw [hc] at h
              dsimp only at h
              exact Except.noConfusion (Option.some.inj h)
          | ok w =>
              obtain ⟨env1, v2, p2⟩ := w
              rw [hc] at h
              dsimp only at h
              have hsnapok : ∀ p ∈ ((getSec env sid).getD
                    (mkSec sid "" 0 0 "" "")).relocs.enum,
                  ∀ s ∈ env,
                  s.id = ((getSec env sid).getD (mkSec sid "" 0 0 "" "")).id →
                  ∃ rj, s.relocs.get? p.1 = some rj ∧
                    scrubReloc rj = scrubReloc p.2 := by
                intro p hp s hs hid
                cases hg2 : getSec env sid with
                | none =>
                    rw [hg2] at hp
                    exact absurd hp (by simp [mkSec])
                | some s₀ =>
                    rw [hg2] at hp hid
                    simp only [Option.getD_some] at hp hid
                    have hmem : s₀ ∈ env := List.mem_of_find?_eq_some hg2
                    have hss : s = s₀ :=
                      List.inj_on_of_nodup_map hnd hs hmem hid
                    subst hss
                    exact ⟨p.2, mem_enum_get? _ _ hp, rfl⟩
              have he1 : EnvEq env1 env :=
                procRelocs_scrub hP _ _ _ env visited pending.dropLast
                  hsnapok env1 v2 p2 hc
              have hnd1 : (env1.map Section.id).Nodup := by
                rw [envEq_ids he1]
                exact hnd
              exact EnvEq.trans (ih env1 v2 p2 hnd1 e1 v1 h) he1

theorem findReachable_scrub
    {P : List Section → Section → Reloc → Except Unit (Bool × Reloc)}
    (hP : PScrub P) (env : List Section) (anchors : List Nat) (fuel : Nat)
    (hnd : (env.map Section.id).Nodup)
    (e1 : List Section) (v1 : List (Nat × List String))
    (h : findReachable P env anchors fuel = some (.ok (e1, v1))) :
    EnvEq e1 env := by
  have h2 : frLoop P fuel env
      (anchors.foldl (fun acc i =>
        if (acc.find? (fun p => p.1 == i)).isSome then acc
        else acc ++ [(i, [])]) [])
      ((anchors.foldl (fun acc i =>
        if (acc.find? (fun p => p.1 == i)).isSome then acc
        else acc ++ [(i, [])]) []).map Prod.fst)
      = some (.ok (e1, v1)) := h
  exact frLoop_scrub hP fuel env _ _ hnd e1 v1 h2

/-- An edge predicate that never alters the relocation at all
(`checkRuntime` only reads). -/
def PId (P : List Section → Section → Reloc → Except Unit (Bool × Reloc)) : Prop :=
  ∀ (env : List Section) (sec : Section) (r : Reloc) (b : Bool) (r1 : Reloc),
    P env sec r = .ok (b, r1) → r1 = r

theorem runtimePred_id : PId runtimePred := by
  intro env sec r b r1 h
  simp only [runtimePred] at h
  cases hc : checkRuntime env r with
  | error e =>
      rw [hc] at h
      exact Except.noConfusion h
  | ok bb =>
      rw [hc] at h
      simp only [Except.map] at h
      have h2 := Except.ok.inj h
      have h3 : r = r1 := congrArg Prod.snd h2
      exact h3.symm

theorem procRelocs_id
    {P : List Section → Section → Reloc → Except Unit (Bool × Reloc)}
    (hP : PId P) (sec : Section) (chain : List String) :
    ∀ (snap : List (Nat × Reloc)) (env : List Section)
      (visited : List (Nat × List String)) (pending : List Nat),
      (∀ p ∈ snap, ∀ s ∈ env, s.id = sec.id → s.relocs.get? p.1 = some p.2) →
      ∀ e1 v1 p1, procRelocs P sec chain snap env visited pending
        = .ok (e1, v1, p1) →
      e1 = env := by
  intro snap
  induction snap with
  | nil =>
      intro env visited pending hsnap e1 v1 p1 h
      simp only [procRelocs] at h
      have h2 := Except.ok.inj h
      exact (congrArg Prod.fst h2).symm
  | cons p ps ih =>
      intro env visited pending hsnap e1 v1 p1 h
      obtain ⟨j, r⟩ := p
      simp only [procRelocs] at h
      cases hp : P env sec r with
      | error e =>
          rw [hp] at h
          exact Except.noConfusion h
      | ok a =>
          rw [hp] at h
          obtain ⟨b, r1⟩ := a
          have hr1 : r1 = r := hP env sec r b r1 hp
          subst hr1
          dsimp only at h
          by_cases hb : b = true
          · rw [if_pos hb] at h
            have hset : setReloc env sec.id j r1 = env :=
              setReloc_self (fun s hs hid =>
                hsnap (j, r1) (List.mem_cons_self _ _) s hs hid)
            rw [hset] at h
            cases hsi : r1.symbol.secId with
            | none =>
                rw [hsi] at h
                exact Except.noConfusion h
            | some nid =>
                rw [hsi] at h
                dsimp only at h
                by_cases hv :
                    ((visited.find? (fun q => q.1 == nid)).isSome) = true
                · rw [if_pos hv] at h
                  exact ih env _ _
                    (fun q hq s hs hid =>
                      hsnap q (List.mem_cons_of_mem _ hq) s hs hid)
                    e1 v1 p1 h
                · rw [if_neg hv] at h
                  exact ih env _ _
                    (fun q hq s hs hid =>
                      hsnap q (List.mem_cons_of_mem _ hq) s hs hid)
                    e1 v1 p1 h
          · rw [if_neg hb] at h
            exact ih env _ _
              (fun q hq s hs hid =>
                hsnap q (List.mem_cons_of_mem _ hq) s hs hid)
              e1 v1 p1 h

theorem frLoop_id
    {P : List Section → Section → Reloc → Except Unit (Bool × Reloc)}
    (hP : PId P) :
    ∀ (fuel : Nat) (env : List Section) (visited : List (Nat × List String))
      (pending : List Nat), (env.map Section.id).Nodup →
      ∀ e1 v1, frLoop P fuel env visited pending = some (.ok (e1, v1)) →
      e1 = env := by
  intro fuel
  induction fuel with
  | zero =>
      intro env visited pending hnd e1 v1 h
      rw [frLoop] at h
      cases hg : pending.getLast? with
      | none =>
          rw [hg] at h
          dsimp only at h
          have h2 := Except.ok.inj (Option.some.inj h)
          exact (congrArg Prod.fst h2).symm
      | some sid =>
          rw [hg] at h
          exact Option.noConfusion h
  | succ n ih =>
      intro env visited pending hnd e1 v1 h
      rw [frLoop] at h
      cases hg : pending.getLast? with
      | none =>
          rw [hg] at h
          dsimp only at h
          have h2 := Except.ok.inj (Option.some.inj h)
          exact (congrArg Prod.fst h2).symm
      | some sid =>
          rw [hg] at h
          dsimp only at h
          cases hc : procRelocs P ((getSec env sid).getD (mkSec sid "" 0 0 "" ""))
              ((((visited.find? (fun p => p.1 == sid)).map Prod.snd).getD [])
                ++ [((getSec env sid).getD (mkSec sid "" 0 0 "" "")).name])
              ((getSec env sid).getD (mkSec sid "" 0 0 "" "")).relocs.enum
              env visited pending.dropLast with
          | error e =>
              rw [hc] at h
              dsimp only at h
              exact Except.noConfusion (Option.some.inj h)
          | ok w =>
              obtain ⟨env1, v2, p2⟩ := w
              rw [hc] at h
              dsimp only at h
              have hsnapok : ∀ p ∈ ((getSec env sid).getD
                    (mkSec sid "" 0 0 "" "")).relocs.enum,
                  ∀ s ∈ env,
                  s.id = ((getSec env sid).getD (mkSec sid "" 0 0 "" "")).id →
                  s.relocs.get? p.1 = some p.2 := by
                intro p hp s hs hid
                cases hg2 : getSec env sid with
                | none =>
                    rw [hg2] at hp
                    exact absurd hp (by simp [mkSec])
                | some s₀ =>
                    rw [hg2] at hp hid
                    simp only [Option.getD_some] at hp hid
                    have hmem : s₀ ∈ env := List.mem_of_find?_eq_some hg2
                    have hss : s = s₀ :=
                      List.inj_on_of_nodup_map hnd hs hmem hid
                    subst hss
                    exact mem_enum_get? _ _ hp
              have he1 : env1 = env :=
                procRelocs_id hP _ _ _ env visited pending.dropLast
                  hsnapok env1 v2 p2 hc
              rw [he1] at h
              exact ih env v2 p2 hnd e1 v1 h

theorem findReachable_id
    {P : List Section → Section → Reloc → Except Unit (Bool × Reloc)}
    (hP : PId P) (env : List Section) (anchors : List Nat) (fuel : Nat)
    (hnd : (env.map Section.id).Nodup)
    (e1 : List Section) (v1 : List (Nat × List String))
    (h : findReachable P env anchors fuel = some (.ok (e1, v1))) :
    e1 = env := by
  have h2 : frLoop P fuel env
      (anchors.foldl (fun acc i =>
        if (acc.find? (fun p => p.1 == i)).isSome then acc
        else acc ++ [(i, [])]) [])
      ((anchors.foldl (fun acc i =>
        if (acc.find? (fun p => p.1 == i)).isSome then acc
        else acc ++ [(i, [])]) []).map Prod.fst)
      = some (.ok (e1, v1)) := h
  exact frLoop_id hP fuel env _ _ hnd e1 v1 h2

/-- The insertion-ordered initial visited map of `findReachable` (the
`for section in anchorsections` loop). -/
def frVisited0 (anchors : List Nat) : List (Nat × List String) :=
  anchors.foldl (fun acc i =>
    if (acc.find? (fun p => p.1 == i)).isSome then acc else acc ++ [(i, [])]) []

/-- Claim C9: idempotence of the reachability traversals.  For a store
with distinct section ids, (a) if the kept-section traversal succeeds,
rerunning it on the (already symbol-resolved) result store succeeds with
the very same visited map — the same kept-section set — and a store that
again agrees with its input up to symbol resolution; (b) the runtime
traversal never modifies the store at all, so rerunning it on its result
returns the identical runtime/init partition. -/
theorem findReachable_idempotent (tabs : List (String × List (String × Symbol)))
    (env : List Section) (anchors : List Nat) (fuel : Nat)
    (hnd : (env.map Section.id).Nodup) :
    (∀ env1 vis1, findReachable (keepPred tabs) env anchors fuel
        = some (.ok (env1, vis1)) →
      ∃ env2, findReachable (keepPred tabs) env1 anchors fuel
          = some (.ok (env2, vis1)) ∧ EnvEq env2 env1) ∧
    (∀ envr visr, findReachable runtimePred env anchors fuel
        = some (.ok (envr, visr)) →
      envr = env ∧ findReachable runtimePred envr anchors fuel
        = some (.ok (envr, visr))) := by
  constructor
  · intro env1 vis1 h1
    have he : EnvEq env1 env :=
      findReachable_scrub (keepPred_scrub tabs) env anchors fuel hnd env1 vis1 h1
    have h1f : frLoop (keepPred tabs) fuel env (frVisited0 anchors)
        ((frVisited0 anchors).map Prod.fst)
        = some (.ok (env1, vis1)) := h1
    have hcong := frLoop_congr (keepPred_congr tabs) fuel env1 env he
        (frVisited0 anchors) ((frVisited0 anchors).map Prod.fst)
    rw [h1f] at hcong
    cases hs : frLoop (keepPred tabs) fuel env1 (frVisited0 anchors)
        ((frVisited0 anchors).map Prod.fst) with
    | none =>
        rw [hs] at hcong
        exact absurd hcong (by simp)
    | some res =>
        cases res with
        | error e =>
            rw [hs] at hcong
            exact absurd hcong (by simp)
        | ok w =>
            obtain ⟨env2, vis2⟩ := w
            rw [hs] at hcong
            obtain ⟨hee, hvv⟩ := hcong
            subst hvv
            exact ⟨env2, hs, hee⟩
  · intro envr visr h1
    have heq : envr = env :=
      findReachable_id runtimePred_id env anchors fuel hnd envr visr h1
    rw [heq] at h1 ⊢
    exact ⟨rfl, h1⟩

def c9r : Reloc :=
  { offset := 0, type := "R_386_32", symbolname := "foo", symbol := dummySym }

def c9s0 : Section := { mkSec 0 ".text.start" 4 1 "16" "16" with relocs := [c9r] }

def c9s1 : Section := mkSec 1 ".text.foo" 4 1 "16" "16"

def c9env : List Section := [c9s0, c9s1]

def c9tabs : List (String × List (String × Symbol)) :=
  [("16", [("foo", { name := "foo", size := 0, offset := 0, secId := some 1 })])]

def c9sym : Symbol := { name := "foo", size := 0, offset := 0, secId := some 1 }

def c9env1 : List Section :=
  [{ c9s0 with relocs := [{ c9r with symbol := c9sym }] }, c9s1]

def c9vis1 : List (Nat × List String) := [(0, []), (1, [".text.start"])]

def c9vis0 : List (Nat × List String) := [(0, [])]

/-- Witness for C9 on a two-section store whose single relocation is
resolved by the first run. -/
theorem findReachable_idempotent_witness :
    (∃ env2, findReachable (keepPred c9tabs) c9env1 [0] 4
        = some (.ok (env2, c9vis1)) ∧ EnvEq env2 c9env1) ∧
    (c9env = c9env ∧ findReachable runtimePred c9env [0] 4
        = some (.ok (c9env, c9vis0))) :=
  ⟨(findReachable_idempotent c9tabs c9env [0] 4 (by decide)).1 c9env1 c9vis1
      (by rfl),
   (findReachable_idempotent c9tabs c9env [0] 4 (by decide)).2 c9env c9vis0
      (by rfl)⟩

/-- The C8 invariant: both final addresses unset, or both set with the
zone's segment base as their difference. -/
def AddrOK (base : Int) (s : Section) : Prop :=
  (s.finalloc = none ∧ s.finalsegloc = none) ∨
  ∃ loc, s.finalloc = some loc ∧ s.finalsegloc = some (loc - base)

theorem mem_getSectionsCategory {secs : List Section} {cat : String} {s : Section}
    (h : s ∈ getSectionsCategory secs cat) : s ∈ secs ∧ s.category = cat := by
  simp only [getSectionsCategory, List.mem_filter] at h
  exact ⟨h.1, by simpa using h.2⟩

theorem mem_getSectionsNamePre {secs : List Section} {pre : String} {s : Section}
    (h : s ∈ getSectionsNamePre secs pre) : s ∈ secs := by
  simp only [getSectionsNamePre, List.mem_filter] at h
  exact h.1

theorem mem_three_prefixes {secs : List Section} {p1 p2 p3 : String} {s : Section}
    (h : s ∈ getSectionsNamePre secs p1 ++ getSectionsNamePre secs p2
      ++ getSectionsNamePre secs p3) : s ∈ secs := by
  rcases List.mem_append.1 h with h2 | h2
  · rcases List.mem_append.1 h2 with h3 | h3
    · exact mem_getSectionsNamePre h3
    · exact mem_getSectionsNamePre h3
  · exact mem_getSectionsNamePre h2

theorem mem_four_prefixes {secs : List Section} {p1 p2 p3 p4 : String} {s : Section}
    (h : s ∈ getSectionsNamePre secs p1 ++ getSectionsNamePre secs p2
      ++ getSectionsNamePre secs p3 ++ getSectionsNamePre secs p4) : s ∈ secs := by
  rcases List.mem_append.1 h with h2 | h2
  · exact mem_three_prefixes h2
  · exact mem_getSectionsNamePre h2

theorem updateEnv_pred {Q : Section → Prop} {env upd : List Section}
    (henv : ∀ s ∈ env, Q s) (hupd : ∀ s ∈ upd, Q s) :
    ∀ s ∈ updateEnv env upd, Q s := by
  intro s hs
  simp only [updateEnv, List.mem_map] at hs
  obtain ⟨s₀, hs₀, rfl⟩ := hs
  cases hf : (upd.find? (fun u => u.id == s₀.id)) with
  | none =>
      simp only [Option.getD_none]
      exact henv s₀ hs₀
  | some u =>
      simp only [Option.getD_some]
      exact hupd u (List.mem_of_find?_eq_some hf)

theorem mem_assignAddrs : ∀ (secs : List Section) (segoffset cur : Int)
    (s : Section), s ∈ assignAddrs segoffset cur secs →
    ∃ s₀ ∈ secs, ∃ loc : Int,
      s = { s₀ with finalloc := some loc, finalsegloc := some (loc - segoffset) } := by
  intro secs
  induction secs with
  | nil => intro _ _ s h; cases h
  | cons x t ih =>
      intro segoffset cur s h
      simp only [assignAddrs, List.mem_cons] at h
      cases h with
      | inl h =>
          exact ⟨x, List.mem_cons_self x t, alignpos cur (x.align : Int), h⟩
      | inr h =>
          obtain ⟨s₀, hs₀, loc, hsh⟩ := ih segoffset _ s h
          exact ⟨s₀, List.mem_cons_of_mem x hs₀, loc, hsh⟩

theorem mem_setSectionsStart_secs {g : List Section} {e m off : Int} {s : Section}
    (h : s ∈ (setSectionsStart g e m off).secs) :
    ∃ s₀ ∈ g, ∃ loc : Int,
      s = { s₀ with finalloc := some loc, finalsegloc := some (loc - off) } :=
  mem_assignAddrs g off _ s h

theorem updateEnv_layout_step {zb : String → Int} {env g : List Section}
    {e m off : Int} {cat : String}
    (henv : ∀ s ∈ env, AddrOK (zb s.category) s)
    (hg : ∀ s ∈ g, s.category = cat)
    (hoff : zb cat = off) :
    ∀ s ∈ updateEnv env (setSectionsStart g e m off).secs,
      AddrOK (zb s.category) s := by
  refine updateEnv_pred henv ?_
  intro s hs
  obtain ⟨s₀, hs₀, loc, rfl⟩ := mem_setSectionsStart_secs hs
  have hcat : ({ s₀ with finalloc := some loc, finalsegloc := some (loc - off) } : Section).category = cat := hg s₀ hs₀
  right
  exact ⟨loc, rfl, by rw [hcat, hoff]⟩

theorem addrOK_fixSec (s : Section) (a : Nat) :
    AddrOK BUILD_BIOS_ADDR (fixSec s a) := by
  right
  refine ⟨(a : Int) + BUILD_BIOS_ADDR, rfl, ?_⟩
  show some (a : Int) = some ((a : Int) + BUILD_BIOS_ADDR - BUILD_BIOS_ADDR)
  rw [Int.add_sub_cancel]

theorem collectFixed_mem : ∀ (secs secs' : List Section)
    (pairs : List (Nat × Section)), collectFixed secs = some (secs', pairs) →
    ∀ s ∈ secs', s ∈ secs ∨ ∃ s₀ ∈ secs, ∃ a : Nat, s = fixSec s₀ a := by
  intro secs
  induction secs with
  | nil =>
      intro secs' pairs h s hs
      simp only [collectFixed] at h
      have h2 := Option.some.inj h
      have h3 : ([] : List Section) = secs' := congrArg Prod.fst h2
      rw [← h3] at hs
      cases hs
  | cons x t ih =>
      intro secs' pairs h s hs
      simp only [collectFixed] at h
      by_cases hfx : strHasPre x.name ".fixedaddr." = true
      · rw [if_pos hfx] at h
        cases hh : hexVal (x.name.data.drop 11) with
        | none => rw [hh] at h; exact Option.noConfusion h
        | some addr =>
            rw [hh] at h
            dsimp only at h
            by_cases hal : x.align ≠ 1
            · rw [if_pos hal] at h; exact Option.noConfusion h
            · rw [if_neg hal] at h
              cases hrec : collectFixed t with
              | none => rw [hrec] at h; exact Option.noConfusion h
              | some pr =>
                  obtain ⟨rs, fixed⟩ := pr
                  rw [hrec] at h
                  dsimp only at h
                  have h2 := Option.some.inj h
                  have h3 : fixSec x addr :: rs = secs' := congrArg Prod.fst h2
                  rw [← h3] at hs
                  rcases List.mem_cons.1 hs with h4 | h4
                  · exact Or.inr ⟨x, List.mem_cons_self x t, addr, h4⟩
                  · rcases ih rs fixed hrec s h4 with h5 | ⟨s₀, hs₀, a, h6⟩
                    · exact Or.inl (List.mem_cons_of_mem x h5)
                    · exact Or.inr ⟨s₀, List.mem_cons_of_mem x hs₀, a, h6⟩
      · rw [if_neg hfx] at h
        cases hrec : collectFixed t with
        | none => rw [hrec] at h; exact Option.noConfusion h
        | some pr =>
            obtain ⟨rs, fixed⟩ := pr
            rw [hrec] at h
            dsimp only at h
            have h2 := Option.some.inj h
            have h3 : x :: rs = secs' := congrArg Prod.fst h2
            rw [← h3] at hs
            rcases List.mem_cons.1 hs with h4 | h4
            · exact Or.inl (by rw [h4]; exact List.mem_cons_self x t)
            · rcases ih rs fixed hrec s h4 with h5 | ⟨s₀, hs₀, a, h6⟩
              · exact Or.inl (List.mem_cons_of_mem x h5)
              · exact Or.inr ⟨s₀, List.mem_cons_of_mem x hs₀, a, h6⟩

theorem fillGapFuel_placed (nf : Int) : ∀ (fuel : Nat) (cans : List Section)
    (addpos : Int) (placed : List Section),
    ∀ s ∈ (fillGapFuel nf fuel cans addpos placed).2.2,
      s ∈ placed ∨ ∃ c ∈ cans, ∃ loc : Int,
        s = { c with finalloc := some (loc + BUILD_BIOS_ADDR),
                     finalsegloc := some loc } := by
  intro fuel
  induction fuel with
  | zero => intro cans addpos placed s hs; exact Or.inl hs
  | succ n ih =>
      intro cans addpos placed s hs
      simp only [fillGapFuel] at hs
      cases hp : pickFit addpos nf cans none with
      | none => rw [hp] at hs; exact Or.inl hs
      | some pr =>
          obtain ⟨fna, c⟩ := pr
          rw [hp] at hs
          dsimp only at hs
          have hc : c ∈ cans := by
            rcases pickFit_result_mem addpos nf cans none (fna, c) hp with h | h
            · exact Option.noConfusion h
            · exact h
          rcases ih (cans.erase c) fna _ s hs with h | ⟨c2, hc2, loc, h4⟩
          · rcases List.mem_append.1 h with h2 | h2
            · exact Or.inl h2
            · have h3 : s = { c with finalloc := some (addpos + BUILD_BIOS_ADDR), finalsegloc := some addpos } := by simpa using h2
              exact Or.inr ⟨c, hc, addpos, h3⟩
          · exact Or.inr ⟨c2, List.mem_of_mem_erase hc2, loc, h4⟩

theorem fitLoop_placed : ∀ (gaps : List (Int × Section)) (cans : List Section),
    ∀ g ∈ (fitLoop gaps cans).2, ∀ s ∈ g.2,
      ∃ c ∈ cans, ∃ loc : Int,
        s = { c with finalloc := some (loc + BUILD_BIOS_ADDR),
                     finalsegloc := some loc } := by
  intro gaps
  induction gaps with
  | nil => intro cans g hg; cases hg
  | cons p rest ih =>
      intro cans g hg s hs
      obtain ⟨freespace, fs⟩ := p
      simp only [fitLoop] at hg
      rcases List.mem_cons.1 hg with h | h
      · subst h
        rcases fillGapFuel_placed _ _ _ _ _ s hs with h2 | hsh
        · cases h2
        · exact hsh
      · obtain ⟨c, hc, loc, hsh⟩ := ih _ g h s hs
        exact ⟨c, (fillGapFuel_cans_sublist _ _ _ _ _).subset hc, loc, hsh⟩

theorem fitSections_mem (secs fills : List Section) (fr : FitResult)
    (h : fitSections secs fills = some fr) :
    (∀ s ∈ fr.env, s ∈ secs ∨ ∃ s₀ ∈ secs, ∃ a : Nat, s = fixSec s₀ a) ∧
    (∀ g ∈ fr.placedGaps, ∀ s ∈ g.2, ∃ c ∈ fills, ∃ loc : Int,
      s = { c with finalloc := some (loc + BUILD_BIOS_ADDR),
                   finalsegloc := some loc }) := by
  unfold fitSections at h
  cases hcf : collectFixed secs with
  | none => rw [hcf] at h; exact Option.noConfusion h
  | some pr =>
      obtain ⟨secs', pairs⟩ := pr
      rw [hcf] at h
      dsimp only at h
      cases hms : List.insertionSort (fun a b => a.1 ≤ b.1) pairs with
      | nil => rw [hms] at h; exact Option.noConfusion h
      | cons p0 restf =>
          obtain ⟨a0, s0⟩ := p0
          rw [hms] at h
          dsimp only at h
          by_cases hz : BUILD_BIOS_SIZE - (a0 : Int) = 0
          · rw [if_pos hz] at h; exact Option.noConfusion h
          · rw [if_neg hz] at h
            have h2 := Option.some.inj h
            rw [← h2]
            constructor
            · intro s hs
              exact collectFixed_mem secs secs' pairs hcf s hs
            · intro g hg s hs
              obtain ⟨c, hc, loc, hsh⟩ := fitLoop_placed _ _ g hg s hs
              have hperm := List.perm_insertionSort
                (fun a b => relKeyLe a b = true) fills
              exact ⟨c, hperm.mem_iff.1 hc, loc, hsh⟩

theorem doLayoutAux_env1_eq (sections : List Section) (config : Config)
    (genreloc : Bool) (fr : FitResult) :
    (doLayoutAux sections config genreloc fr).env1
      = updateEnv sections (fr.env ++ fr.placedGaps.flatMap (fun g => g.2)) := rfl

theorem doLayoutAux_env2_eq (sections : List Section) (config : Config)
    (genreloc : Bool) (fr : FitResult) :
    (doLayoutAux sections config genreloc fr).env2
      = updateEnv (doLayoutAux sections config genreloc fr).env1
        (setSectionsStart
          ((getSectionsNamePre (getSectionsCategory
              (doLayoutAux sections config genreloc fr).env1 "16") ".text."
            ++ getSectionsNamePre (getSectionsCategory
              (doLayoutAux sections config genreloc fr).env1 "16") ".rodata"
            ++ getSectionsNamePre (getSectionsCategory
              (doLayoutAux sections config genreloc fr).env1 "16") ".data16.").filter
            (fun s => s.finalloc.isNone))
          (doLayoutAux sections config genreloc fr).firstfixed 1
          BUILD_BIOS_ADDR).secs := rfl

theorem doLayoutAux_env3_eq (sections : List Section) (config : Config)
    (genreloc : Bool) (fr : FitResult) :
    (doLayoutAux sections config genreloc fr).env3
      = updateEnv (doLayoutAux sections config genreloc fr).env2
        (setSectionsStart
          (getSectionsNamePre (getSectionsCategory
              (doLayoutAux sections config genreloc fr).env2 "32seg") ".text."
            ++ getSectionsNamePre (getSectionsCategory
              (doLayoutAux sections config genreloc fr).env2 "32seg") ".rodata"
            ++ getSectionsNamePre (getSectionsCategory
              (doLayoutAux sections config genreloc fr).env2 "32seg") ".data32seg.")
          (doLayoutAux sections config genreloc fr).sec16_start 1
          BUILD_BIOS_ADDR).secs := rfl

theorem doLayoutAux_env4_eq (sections : List Section) (config : Config)
    (genreloc : Bool) (fr : FitResult) :
    (doLayoutAux sections config genreloc fr).env4
      = updateEnv (doLayoutAux sections config genreloc fr).env3
        (setSectionsStart
          (getSectionsCategory (doLayoutAux sections config genreloc fr).env3
            "32textfseg")
          (doLayoutAux sections config genreloc fr).sec32seg_start 16 0).secs := rfl

theorem doLayoutAux_env5_eq (sections : List Section) (config : Config)
    (genreloc : Bool) (fr : FitResult) :
    (doLayoutAux sections config genreloc fr).env5
      = updateEnv (doLayoutAux sections config genreloc fr).env4
        (setSectionsStart
          (getSectionsCategory (doLayoutAux sections config genreloc fr).env4
            "32fseg")
          (doLayoutAux sections config genreloc fr).sec32textfseg_start 16
          BUILD_BIOS_ADDR).secs := rfl

theorem doLayoutAux_flatlist_eq (sections : List Section) (config : Config)
    (genreloc : Bool) (fr : FitResult) :
    (doLayoutAux sections config genreloc fr).flatlist
      = getSectionsNamePre (getSectionsCategory
          (doLayoutAux sections config genreloc fr).env5 "32flat") ".text."
        ++ getSectionsNamePre (getSectionsCategory
          (doLayoutAux sections config genreloc fr).env5 "32flat") ".rodata"
        ++ getSectionsNamePre (getSectionsCategory
          (doLayoutAux sections config genreloc fr).env5 "32flat") ".data."
        ++ getSectionsNamePre (getSectionsCategory
          (doLayoutAux sections config genreloc fr).env5 "32flat") ".bss." := rfl

theorem doLayoutAux_env6_eq (sections : List Section) (config : Config)
    (genreloc : Bool) (fr : FitResult) :
    (doLayoutAux sections config genreloc fr).env6
      = updateEnv (doLayoutAux sections config genreloc fr).env5
        (setSectionsStart (doLayoutAux sections config genreloc fr).flatlist
          (doLayoutAux sections config genreloc fr).sec32fseg_start 16 0).secs := rfl

theorem doLayoutAux_initlist_eq (sections : List Section) (config : Config)
    (genreloc : Bool) (fr : FitResult) :
    (doLayoutAux sections config genreloc fr).initlist
      = getSectionsNamePre (getSectionsCategory
          (doLayoutAux sections config genreloc fr).env6 "32init") ".text."
        ++ getSectionsNamePre (getSectionsCategory
          (doLayoutAux sections config genreloc fr).env6 "32init") ".rodata"
        ++ getSectionsNamePre (getSectionsCategory
          (doLayoutAux sections config genreloc fr).env6 "32init") ".data."
        ++ getSectionsNamePre (getSectionsCategory
          (doLayoutAux sections config genreloc fr).env6 "32init") ".bss." := rfl

theorem doLayoutAux_env7_eq (sections : List Section) (config : Config)
    (genreloc : Bool) (fr : FitResult) :
    (doLayoutAux sections config genreloc fr).env7
      = updateEnv (doLayoutAux sections config genreloc fr).env6
        (setSectionsStart (doLayoutAux sections config genreloc fr).initlist
          (doLayoutAux sections config genreloc fr).sec32flat_start_pass1
          16 0).secs := rfl

theorem doLayoutAux_env8_eq (sections : List Section) (config : Config)
    (genreloc : Bool) (fr : FitResult) :
    (doLayoutAux sections config genreloc fr).env8
      = updateEnv
        (updateEnv (doLayoutAux sections config genreloc fr).env7
          (setSectionsStart (doLayoutAux sections config genreloc fr).flatlist
            (doLayoutAux sections config genreloc fr).flat_endaddr 16 0).secs)
        (setSectionsStart (doLayoutAux sections config genreloc fr).initlist
          (doLayoutAux sections config genreloc fr).sec32init_end 16 0).secs := rfl

theorem doLayoutAux_env_eq (sections : List Section) (config : Config)
    (genreloc : Bool) (fr : FitResult) :
    (doLayoutAux sections config genreloc fr).env
      = updateEnv (doLayoutAux sections config genreloc fr).env8
        (setSectionsStart
          (getSectionsCategory (doLayoutAux sections config genreloc fr).env8
            "32low")
          (doLayoutAux sections config genreloc fr).sec32low_end 16
          ((doLayoutAux sections config genreloc fr).zonelow_base
            - ((if config.malloc_uppermemory
                then (doLayoutAux sections config genreloc fr).final_readonly_start
                else BUILD_LOWRAM_END)
              - (doLayoutAux sections config genreloc fr).sec32low_end))).secs := rfl

theorem doLayoutAux_addrOK (zb : String → Int) (sections : List Section)
    (config : Config) (genreloc : Bool) (fr : FitResult)
    (hfresh : ∀ s ∈ sections, AddrOK (zb s.category) s)
    (hfr : ∀ s ∈ fr.env, AddrOK (zb s.category) s)
    (hpg : ∀ g ∈ fr.placedGaps, ∀ s ∈ g.2, AddrOK (zb s.category) s)
    (hb16 : zb "16" = BUILD_BIOS_ADDR)
    (hb32seg : zb "32seg" = BUILD_BIOS_ADDR)
    (hbtf : zb "32textfseg" = 0)
    (hbfseg : zb "32fseg" = BUILD_BIOS_ADDR)
    (hbflat : zb "32flat" = 0)
    (hbinit : zb "32init" = 0)
    (hblow : zb "32low" = (doLayoutAux sections config genreloc fr).zonelow_base
      - ((if config.malloc_uppermemory
          then (doLayoutAux sections config genreloc fr).final_readonly_start
          else BUILD_LOWRAM_END)
        - (doLayoutAux sections config genreloc fr).sec32low_end)) :
    ∀ s ∈ (doLayoutAux sections config genreloc fr).env,
      AddrOK (zb s.category) s := by
  have h1 : ∀ s ∈ (doLayoutAux sections config genreloc fr).env1,
      AddrOK (zb s.category) s := by
    rw [doLayoutAux_env1_eq]
    refine updateEnv_pred hfresh ?_
    intro s hs
    rcases List.mem_append.1 hs with h2 | h2
    · exact hfr s h2
    · rw [List.mem_flatMap] at h2
      obtain ⟨g, hg, hsg⟩ := h2
      exact hpg g hg s hsg
  have h2 : ∀ s ∈ (doLayoutAux sections config genreloc fr).env2,
      AddrOK (zb s.category) s := by
    rw [doLayoutAux_env2_eq]
    refine updateEnv_layout_step h1 ?_ hb16
    intro s hs
    exact (mem_getSectionsCategory (mem_three_prefixes (List.mem_filter.1 hs).1)).2
  have h3 : ∀ s ∈ (doLayoutAux sections config genreloc fr).env3,
      AddrOK (zb s.category) s := by
    rw [doLayoutAux_env3_eq]
    refine updateEnv_layout_step h2 ?_ hb32seg
    intro s hs
    exact (mem_getSectionsCategory (mem_three_prefixes hs)).2
  have h4 : ∀ s ∈ (doLayoutAux sections config genreloc fr).env4,
      AddrOK (zb s.category) s := by
    rw [doLayoutAux_env4_eq]
    refine updateEnv_layout_step h3 ?_ hbtf
    intro s hs
    exact (mem_getSectionsCategory hs).2
  have h5 : ∀ s ∈ (doLayoutAux sections config genreloc fr).env5,
      AddrOK (zb s.category) s := by
    rw [doLayoutAux_env5_eq]
    refine updateEnv_layout_step h4 ?_ hbfseg
    intro s hs
    exact (mem_getSectionsCategory hs).2
  have hflatcat : ∀ s ∈ (doLayoutAux sections config genreloc fr).flatlist,
      s.category = "32flat" := by
    rw [doLayoutAux_flatlist_eq]
    intro s hs
    exact (mem_getSectionsCategory (mem_four_prefixes hs)).2
  have h6 : ∀ s ∈ (doLayoutAux sections config genreloc fr).env6,
      AddrOK (zb s.category) s := by
    rw [doLayoutAux_env6_eq]
    exact updateEnv_layout_step h5 hflatcat hbflat
  have hinitcat : ∀ s ∈ (doLayoutAux sections config genreloc fr).initlist,
      s.category = "32init" := by
    rw [doLayoutAux_initlist_eq]
    intro s hs
    exact (mem_getSectionsCategory (mem_four_prefixes hs)).2
  have h7 : ∀ s ∈ (doLayoutAux sections config genreloc fr).env7,
      AddrOK (zb s.category) s := by
    rw [doLayoutAux_env7_eq]
    exact updateEnv_layout_step h6 hinitcat hbinit
  have h8 : ∀ s ∈ (doLayoutAux sections config genreloc fr).env8,
      AddrOK (zb s.category) s := by
    rw [doLayoutAux_env8_eq]
    exact updateEnv_layout_step
      (updateEnv_layout_step h7 hflatcat hbflat) hinitcat hbinit
  rw [doLayoutAux_env_eq]
  refine updateEnv_layout_step h8 ?_ hblow
  intro s hs
  exact (mem_getSectionsCategory hs).2

theorem doLayout_addrOK_aux (zb : String → Int) (sections : List Section)
    (config : Config) (genreloc : Bool) (fr : FitResult)
    (hfit : fitSections (getSectionsCategory sections "fixed")
      (getSectionsNamePre (getSectionsCategory sections "16") ".text.") = some fr)
    (hfresh : ∀ s ∈ sections, s.finalloc = none ∧ s.finalsegloc = none)
    (hbfixed : zb "fixed" = BUILD_BIOS_ADDR)
    (hb16 : zb "16" = BUILD_BIOS_ADDR)
    (hb32seg : zb "32seg" = BUILD_BIOS_ADDR)
    (hbtf : zb "32textfseg" = 0)
    (hbfseg : zb "32fseg" = BUILD_BIOS_ADDR)
    (hbflat : zb "32flat" = 0)
    (hbinit : zb "32init" = 0)
    (hblow : zb "32low" = (doLayoutAux sections config genreloc fr).zonelow_base
      - ((if config.malloc_uppermemory
          then (doLayoutAux sections config genreloc fr).final_readonly_start
          else BUILD_LOWRAM_END)
        - (doLayoutAux sections config genreloc fr).sec32low_end)) :
    ∀ s ∈ (doLayoutAux sections config genreloc fr).env,
      AddrOK (zb s.category) s := by
  refine doLayoutAux_addrOK zb sections config genreloc fr
    (fun s hs => Or.inl (hfresh s hs)) ?_ ?_ hb16 hb32seg hbtf hbfseg hbflat
    hbinit hblow
  · intro t ht
    rcases (fitSections_mem _ _ fr hfit).1 t ht with hin | ⟨s₀, hs₀, a, rfl⟩
    · exact Or.inl (hfresh t (mem_getSectionsCategory hin).1)
    · have hcat : (fixSec s₀ a).category = "fixed" :=
        (mem_getSectionsCategory hs₀).2
      rw [hcat, hbfixed]
      exact addrOK_fixSec s₀ a
  · intro g hg t ht
    obtain ⟨c, hc, loc, rfl⟩ := (fitSections_mem _ _ fr hfit).2 g hg t ht
    have hcat : ({ c with finalloc := some (loc + BUILD_BIOS_ADDR), finalsegloc := some loc } : Section).category = "16" :=
      (mem_getSectionsCategory (mem_getSectionsNamePre hc)).2
    rw [hcat, hb16]
    right
    refine ⟨loc + BUILD_BIOS_ADDR, rfl, ?_⟩
    rw [Int.add_sub_cancel]

/-- Claim C8: after layout every section either has both final addresses
unset or both set, and when both are set the segment-relative address
equals the absolute one minus the segment base used for the section's
zone: `BUILD_BIOS_ADDR` for the f-segment-resident zones (fixed, 16,
32seg, 32fseg and the packer's fill placements), 0 for the flat zones
(32textfseg, 32flat, 32init), and the relocated low-zone base
`zonelow_base - relocdelta` for 32low. -/
theorem doLayout_addr_pair (sections : List Section) (config : Config)
    (genreloc : Bool) (r : DoLayoutResult)
    (hfresh : ∀ s ∈ sections, s.finalloc = none ∧ s.finalsegloc = none)
    (h : doLayout sections config genreloc = some r) :
    ∀ s ∈ r.env,
      (s.finalloc = none ∧ s.finalsegloc = none) ∨
      ∃ loc, s.finalloc = some loc ∧ s.finalsegloc = some (loc -
        (if s.category == "32textfseg" || s.category == "32flat"
            || s.category == "32init" then (0 : Int)
         else if s.category == "32low" then
           r.zonelow_base - ((if config.malloc_uppermemory
             then r.final_readonly_start else BUILD_LOWRAM_END) - r.sec32low_end)
         else BUILD_BIOS_ADDR)) := by
  unfold doLayout at h
  cases hf : fitSections (getSectionsCategory sections "fixed")
      (getSectionsNamePre (getSectionsCategory sections "16") ".text.") with
  | none => rw [hf] at h; exact Option.noConfusion h
  | some fr =>
      rw [hf] at h
      dsimp only at h
      have hr : doLayoutAux sections config genreloc fr = r := Option.some.inj h
      intro s hs
      rw [← hr] at hs ⊢
      exact doLayout_addrOK_aux
        (fun cat => if cat == "32textfseg" || cat == "32flat" || cat == "32init"
            then (0 : Int)
          else if cat == "32low" then
            (doLayoutAux sections config genreloc fr).zonelow_base
              - ((if config.malloc_uppermemory
                  then (doLayoutAux sections config genreloc fr).final_readonly_start
                  else BUILD_LOWRAM_END)
                - (doLayoutAux sections config genreloc fr).sec32low_end)
          else BUILD_BIOS_ADDR)
        sections config genreloc fr hf hfresh rfl rfl rfl rfl rfl rfl rfl rfl
        s hs

/-- The flat-runtime section of the `c12env` run, as stored after
layout. -/
def c8s : Section := c12res.env.getD 1 (mkSec 99 "" 0 0 "" "")

/-- Witness for C8 on the corrective-run input `c12env`, at its 32flat
section. -/
theorem doLayout_addr_pair_witness :
    (c8s.finalloc = none ∧ c8s.finalsegloc = none) ∨
    ∃ loc, c8s.finalloc = some loc ∧ c8s.finalsegloc = some (loc -
      (if c8s.category == "32textfseg" || c8s.category == "32flat"
          || c8s.category == "32init" then (0 : Int)
       else if c8s.category == "32low" then
         c12res.zonelow_base
           - (c12res.final_readonly_start - c12res.sec32low_end)
       else BUILD_BIOS_ADDR)) :=
  doLayout_addr_pair c12env { malloc_uppermemory := true } true c12res
    (by decide) (by rfl) c8s (by decide)

theorem pickFit_some_spec (addpos nf : Int) : ∀ (cans : List Section)
    (acc : Option (Int × Section)) (r : Int × Section),
    pickFit addpos nf cans acc = some r →
    acc = some r ∨ (r.2 ∈ cans ∧
      r.1 = alignpos addpos (r.2.align : Int) + (r.2.size : Int) ∧ r.1 ≤ nf) := by
  intro cans
  induction cans with
  | nil => intro acc r h; exact Or.inl h
  | cons c rest ih =>
      intro acc r h
      simp only [pickFit] at h
      by_cases h1 : addpos + (c.size : Int) > nf
      · rw [if_pos h1] at h; exact Or.inl h
      · rw [if_neg h1] at h
        by_cases h2 : alignpos addpos (c.align : Int) + (c.size : Int) > nf
        · rw [if_pos h2] at h
          rcases ih acc r h with h3 | ⟨hm, he, hb⟩
          · exact Or.inl h3
          · exact Or.inr ⟨List.mem_cons_of_mem c hm, he, hb⟩
        · rw [if_neg h2] at h
          rcases ih _ r h with h3 | ⟨hm, he, hb⟩
          · have h4 := Option.some.inj h3
            rw [← h4]
            exact Or.inr ⟨List.mem_cons_self c rest, rfl, le_of_not_lt h2⟩
          · exact Or.inr ⟨List.mem_cons_of_mem c hm, he, hb⟩

theorem fillGapFuel_shift (nf : Int) : ∀ (fuel : Nat) (cans : List Section)
    (addpos : Int) (placed : List Section),
    fillGapFuel nf fuel cans addpos placed
      = ((fillGapFuel nf fuel cans addpos []).1,
         (fillGapFuel nf fuel cans addpos []).2.1,
         placed ++ (fillGapFuel nf fuel cans addpos []).2.2) := by
  intro fuel
  induction fuel with
  | zero => intro cans addpos placed; simp [fillGapFuel]
  | succ n ih =>
      intro cans addpos placed
      simp only [fillGapFuel]
      cases hp : pickFit addpos nf cans none with
      | none => simp
      | some pr =>
          obtain ⟨fna, c⟩ := pr
          dsimp only
          simp only [List.nil_append]
          have e1 := ih (cans.erase c) fna
            (placed ++ [{ c with finalloc := some (addpos + BUILD_BIOS_ADDR), finalsegloc := some addpos }])
          have e2 := ih (cans.erase c) fna
            [{ c with finalloc := some (addpos + BUILD_BIOS_ADDR), finalsegloc := some addpos }]
          rw [e1, e2]
          simp [List.append_assoc]

theorem fillGapFuel_gap_props (nf : Int) : ∀ (fuel : Nat) (cans : List Section)
    (addpos : Int), (∀ c ∈ cans, 1 ≤ (c.align : Int)) →
    (∀ s ∈ (fillGapFuel nf fuel cans addpos []).2.2,
      ∃ pos : Int, s.finalsegloc = some pos ∧ addpos ≤ pos ∧
        pos + (s.size : Int) ≤ (fillGapFuel nf fuel cans addpos []).2.1) ∧
    List.Pairwise (fun a b =>
      a.finalsegloc.getD 0 + (a.size : Int) ≤ b.finalsegloc.getD 0)
      (fillGapFuel nf fuel cans addpos []).2.2 ∧
    addpos ≤ (fillGapFuel nf fuel cans addpos []).2.1 ∧
    ((fillGapFuel nf fuel cans addpos []).2.2 = []
      → (fillGapFuel nf fuel cans addpos []).2.1 = addpos) ∧
    ((fillGapFuel nf fuel cans addpos []).2.2 ≠ []
      → (fillGapFuel nf fuel cans addpos []).2.1 ≤ nf) ∧
    (((fillGapFuel nf fuel cans addpos []).2.2.map
        (fun s => (s.size : Int))).sum
      ≤ (fillGapFuel nf fuel cans addpos []).2.1 - addpos) := by
  intro fuel
  induction fuel with
  | zero =>
      intro cans addpos hal
      refine ⟨fun s hs => absurd hs (by simp [fillGapFuel]), ?_, ?_, ?_, ?_, ?_⟩
      · simp [fillGapFuel]
      · simp [fillGapFuel]
      · intro _; rfl
      · intro hne; exact absurd rfl hne
      · simp [fillGapFuel]
  | succ n ih =>
      intro cans addpos hal
      by_cases hp : ∃ pr, pickFit addpos nf cans none = some pr
      · obtain ⟨⟨fna, c⟩, hp⟩ := hp
        have hout : fillGapFuel nf (n + 1) cans addpos []
            = ((fillGapFuel nf n (cans.erase c) fna []).1,
               (fillGapFuel nf n (cans.erase c) fna []).2.1,
               { c with finalloc := some (addpos + BUILD_BIOS_ADDR), finalsegloc := some addpos }
                 :: (fillGapFuel nf n (cans.erase c) fna []).2.2) := by
          simp only [fillGapFuel]
          rw [hp]
          dsimp only
          rw [fillGapFuel_shift nf n (cans.erase c) fna]
          simp
        rcases pickFit_some_spec addpos nf cans none (fna, c) hp with h0 | ⟨hm, he, hb⟩
        · exact Option.noConfusion h0
        · dsimp only at hm he hb
          have hc : c ∈ cans := hm
          have hfna : addpos + (c.size : Int) ≤ fna := by
            rw [he]
            have := le_alignpos addpos (c.align : Int) (hal c hc)
            omega
          have haddfna : addpos ≤ fna := by
            have hsz : (0 : Int) ≤ (c.size : Int) := Int.ofNat_nonneg _
            omega
          obtain ⟨ihA, ihB, ihC, ihD, ihE, ihF⟩ :=
            ih (cans.erase c) fna (fun x hx => hal x (List.mem_of_mem_erase hx))
          rw [hout]
          dsimp only
          refine ⟨?_, ?_, ?_, ?_, ?_, ?_⟩
          · intro s hs
            rcases List.mem_cons.1 hs with h1 | h1
            · refine ⟨addpos, by rw [h1], le_refl addpos, ?_⟩
              rw [h1]
              dsimp only
              exact le_trans hfna ihC
            · obtain ⟨pos, hp1, hp2, hp3⟩ := ihA s h1
              exact ⟨pos, hp1, le_trans haddfna hp2, hp3⟩
          · rw [List.pairwise_cons]
            refine ⟨?_, ihB⟩
            intro b hb
            obtain ⟨pos, hp1, hp2, hp3⟩ := ihA b hb
            rw [hp1]
            dsimp only [Option.getD_some]
            omega
          · exact le_trans haddfna ihC
          · intro hcontra; exact List.noConfusion hcontra
          · intro _
            by_cases hrec : (fillGapFuel nf n (cans.erase c) fna []).2.2 = []
            · rw [ihD hrec]; exact hb
            · exact ihE hrec
          · simp only [List.map_cons, List.sum_cons]
            omega
      · have hp2 : pickFit addpos nf cans none = none := by
          cases hpc : pickFit addpos nf cans none with
          | none => rfl
          | some pr => exact absurd ⟨pr, hpc⟩ hp
        have hout : fillGapFuel nf (n + 1) cans addpos []
            = (cans, addpos, []) := by
          simp only [fillGapFuel]
          rw [hp2]
        rw [hout]
        refine ⟨fun s hs => absurd hs (by simp), ?_, le_refl addpos, fun _ => rfl,
          ?_, ?_⟩
        · exact List.Pairwise.nil
        · intro hne; exact absurd rfl hne
        · simp

theorem fitLoop_gap_props : ∀ (gaps : List (Int × Section)) (cans : List Section),
    (∀ c ∈ cans, 1 ≤ (c.align : Int)) →
    ∀ g ∈ (fitLoop gaps cans).2,
      (∀ s ∈ g.2, ∃ pos : Int, s.finalsegloc = some pos ∧
        g.1.2.finalsegloc.getD 0 + (g.1.2.size : Int) ≤ pos ∧
        pos + (s.size : Int)
          ≤ g.1.2.finalsegloc.getD 0 + (g.1.2.size : Int) + g.1.1) ∧
      List.Pairwise (fun a b =>
        a.finalsegloc.getD 0 + (a.size : Int) ≤ b.finalsegloc.getD 0) g.2 ∧
      (0 ≤ g.1.1 → (g.2.map (fun s => (s.size : Int))).sum ≤ g.1.1) ∧
      (g.1.1 < 0 → g.2 = []) := by
  intro gaps
  induction gaps with
  | nil => intro cans hal g hg; cases hg
  | cons p rest ih =>
      intro cans hal g hg
      obtain ⟨freespace, fs⟩ := p
      simp only [fitLoop, fillGapLoop] at hg
      rcases List.mem_cons.1 hg with h | h
      · subst h
        dsimp only
        obtain ⟨hA, hB, hC, hD, hE, hF⟩ := fillGapFuel_gap_props
          (fs.finalsegloc.getD 0 + (fs.size : Int) + freespace)
          cans.length cans (fs.finalsegloc.getD 0 + (fs.size : Int)) hal
        refine ⟨?_, hB, ?_, ?_⟩
        · intro s hs
          obtain ⟨pos, h1, h2, h3⟩ := hA s hs
          have hne : (fillGapFuel (fs.finalsegloc.getD 0 + (fs.size : Int) + freespace)
              cans.length cans (fs.finalsegloc.getD 0 + (fs.size : Int)) []).2.2 ≠ [] := by
            intro hcontra
            rw [hcontra] at hs
            cases hs
          exact ⟨pos, h1, h2, le_trans h3 (hE hne)⟩
        · intro hpos
          by_cases hne : (fillGapFuel (fs.finalsegloc.getD 0 + (fs.size : Int) + freespace)
              cans.length cans (fs.finalsegloc.getD 0 + (fs.size : Int)) []).2.2 = []
          · rw [hne]
            simpa using hpos
          · have h5 := hE hne
            omega
        · intro hneg
          by_cases hne : (fillGapFuel (fs.finalsegloc.getD 0 + (fs.size : Int) + freespace)
              cans.length cans (fs.finalsegloc.getD 0 + (fs.size : Int)) []).2.2 = []
          · exact hne
          · exfalso
            rcases List.exists_mem_of_ne_nil _ hne with ⟨s, hs⟩
            obtain ⟨pos, h1, h2, h3⟩ := hA s hs
            have h5 := hE hne
            have hsz : (0 : Int) ≤ (s.size : Int) := Int.ofNat_nonneg _
            omega
      · exact ih _ (fun x hx => hal x
          ((fillGapFuel_cans_sublist _ _ _ _ _).subset hx)) g h

/-- Claim C4 (amended): the gaps the packer fills are exactly the
`availGaps` entries of the sorted fixed pairs (avail = next offset minus
this offset minus this size, `BUILD_BIOS_SIZE` bounding the last); the
fill sections placed into a gap sit at recorded positions that start at
the gap's start, stay within the gap's available space, and are pairwise
non-overlapping in placement order; the sizes placed into a gap sum to
at most its available space whenever that space is nonnegative, and a
gap with negative available space (possible only when fixed ranges
overlap) receives nothing. -/
theorem fitSections_packing_sound (secs fills : List Section) (fr : FitResult)
    (h : fitSections secs fills = some fr)
    (hal : ∀ c ∈ fills, 1 ≤ (c.align : Int)) :
    (∃ pairs, collectFixed secs = some (fr.env, pairs) ∧
      (fr.placedGaps.map Prod.fst).Perm
        (availGaps (List.insertionSort (fun a b => a.1 ≤ b.1) pairs))) ∧
    (∀ g ∈ fr.placedGaps,
      (∀ s ∈ g.2, ∃ pos : Int, s.finalsegloc = some pos ∧
        g.1.2.finalsegloc.getD 0 + (g.1.2.size : Int) ≤ pos ∧
        pos + (s.size : Int)
          ≤ g.1.2.finalsegloc.getD 0 + (g.1.2.size : Int) + g.1.1) ∧
      List.Pairwise (fun a b =>
        a.finalsegloc.getD 0 + (a.size : Int) ≤ b.finalsegloc.getD 0) g.2 ∧
      (0 ≤ g.1.1 → (g.2.map (fun s => (s.size : Int))).sum ≤ g.1.1) ∧
      (g.1.1 < 0 → g.2 = [])) := by
  unfold fitSections at h
  cases hcf : collectFixed secs with
  | none => rw [hcf] at h; exact Option.noConfusion h
  | some pr =>
      obtain ⟨secs', pairs⟩ := pr
      rw [hcf] at h
      dsimp only at h
      cases hms : List.insertionSort (fun a b => a.1 ≤ b.1) pairs with
      | nil => rw [hms] at h; exact Option.noConfusion h
      | cons p0 restf =>
          obtain ⟨a0, s0⟩ := p0
          rw [hms] at h
          dsimp only at h
          by_cases hz : BUILD_BIOS_SIZE - (a0 : Int) = 0
          · rw [if_pos hz] at h; exact Option.noConfusion h
          · rw [if_neg hz] at h
            have h2 := Option.some.inj h
            rw [← h2]
            constructor
            · refine ⟨pairs, rfl, ?_⟩
              show ((fitLoop (List.insertionSort (fun a b => a.1 ≤ b.1)
                  (availGaps ((a0, s0) :: restf)))
                  (List.insertionSort (fun a b => relKeyLe a b = true)
                    fills)).2.map Prod.fst).Perm
                (availGaps (List.insertionSort (fun a b => a.1 ≤ b.1) pairs))
              rw [fitLoop_gaps_fst, ← hms]
              exact List.perm_insertionSort _ _
            · intro g hg
              refine fitLoop_gap_props _ _ ?_ g hg
              intro c hc
              exact hal c ((List.perm_insertionSort
                (fun a b => relKeyLe a b = true) fills).mem_iff.1 hc)

def c4a : Section := mkSec 20 ".fixedaddr.0" 0x20 1 "16" "fixed"

def c4b : Section := mkSec 21 ".fixedaddr.10" 8 1 "16" "fixed"

def c4secs : List Section := [c4a, c4b]

def c4fr : FitResult :=
  (fitSections c4secs []).getD
    { env := [], cans := [], placedGaps := [], firstfixed := 0, ret := 0 }

/-- Claim C4, counterexample to global non-overlap as stated: two
`.fixedaddr.` sections whose mandated ranges overlap are both placed as
given — the packer never checks fixed sections against each other, and
the first gap's available space is negative. -/
theorem fitSections_fixed_overlap_cex :
    fitSections c4secs [] = some c4fr ∧
    (∃ s1 ∈ c4fr.env, ∃ s2 ∈ c4fr.env, s1 ≠ s2 ∧
      ∃ a1 a2 : Int, s1.finalsegloc = some a1 ∧ s2.finalsegloc = some a2 ∧
        a1 < a2 + (s2.size : Int) ∧ a2 < a1 + (s1.size : Int)) ∧
    (∃ g ∈ c4fr.placedGaps, g.1.1 < 0) := by
  refine ⟨by rfl, ⟨fixSec c4a 0, by decide, fixSec c4b 0x10, by decide, by decide,
    0, 0x10, by decide, by decide, by decide, by decide⟩, ?_⟩
  refine ⟨(((-16 : Int), fixSec c4a 0), ([] : List Section)), ?_⟩
  constructor
  · decide
  · decide

/-- Witness for C4 on the `c5secs`/`c5fills` packing run. -/
theorem fitSections_packing_sound_witness :
    (∃ pairs, collectFixed c5secs = some (c5res.env, pairs) ∧
      (c5res.placedGaps.map Prod.fst).Perm
        (availGaps (List.insertionSort (fun a b => a.1 ≤ b.1) pairs))) ∧
    (∀ g ∈ c5res.placedGaps,
      (∀ s ∈ g.2, ∃ pos : Int, s.finalsegloc = some pos ∧
        g.1.2.finalsegloc.getD 0 + (g.1.2.size : Int) ≤ pos ∧
        pos + (s.size : Int)
          ≤ g.1.2.finalsegloc.getD 0 + (g.1.2.size : Int) + g.1.1) ∧
      List.Pairwise (fun a b =>
        a.finalsegloc.getD 0 + (a.size : Int) ≤ b.finalsegloc.getD 0) g.2 ∧
      (0 ≤ g.1.1 → (g.2.map (fun s => (s.size : Int))).sum ≤ g.1.1) ∧
      (g.1.1 < 0 → g.2 = [])) :=
  fitSections_packing_sound c5secs c5fills c5res (by rfl) (by decide)

end LayoutRom
